import Mathlib

/-! snug: a shallow embedding of the HTTP router

The Go sources `endpoint.go`, `router.go`, `json.go`, `middleware.go` and
`fitting.go` are rendered as Lean functions.  Go strings are lists of characters,
a Go panic is the `error` side of `Except`, a nil-able function value is an
`Option`, and the `http.ResponseWriter` interface is a type class, so that a
handler is a function that works for every implementation of the interface.

Conventions:
* `strings.Split` is only ever called with a one-character separator, so `Split`
  takes a single separator character;
* `strings.ToLower` and `strings.ToUpper` map the ASCII characters directly and
  take the mapping of every other character from the case tables of Go's
  `unicode` package.  The tables are a parameter, `CaseTables`: the general
  theorems hold for every table, and the evaluations at concrete inputs, whose
  strings are ASCII, consult none;
* the `log.Printf` calls of the router and of the JSON helper write to the
  process log and have no effect on routing; they are left out.  The log line of
  the `Logging` middleware is kept, as the arguments of its `log.Printf` call;
* `Fit` starts from the outcome of decoding the body into the struct.
-/

namespace Snug

/-! Strings -/

/-- A Go string. -/
abbrev Str := List Char

/-- Go `strings.HasPrefix`. -/
def HasPrefix (s pre : Str) : Bool := pre.isPrefixOf s

/-- Go `strings.HasSuffix`. -/
def HasSuffix (s suf : Str) : Bool := suf.isSuffixOf s

/-- Go `strings.TrimLeft`: drop the leading characters that belong to `cutset`. -/
def TrimLeft (s cutset : Str) : Str := s.dropWhile (fun c => decide (c ∈ cutset))

/-- Go `strings.TrimRight`. -/
def TrimRight (s cutset : Str) : Str := (TrimLeft s.reverse cutset).reverse

/-- Go `strings.Trim`: drop leading and trailing characters that belong to `cutset`. -/
def Trim (s cutset : Str) : Str := TrimRight (TrimLeft s cutset) cutset

/-- The case tables of Go's `unicode` package for the characters outside ASCII:
the lower-case and the upper-case form of a character.  The tables are not part of
the repository; two facts about them are used.  No character outside ASCII has
`/`, `<`, `>` or `*` as its lower-case form, and upper-casing the upper-case form
of a character changes nothing. -/
class CaseTables where
  lower : Char → Char
  upper : Char → Char
  lower_marks : ∀ c : Char, 128 ≤ c.toNat →
    lower c ≠ '/' ∧ lower c ≠ '<' ∧ lower c ≠ '>' ∧ lower c ≠ '*'
  upper_stable : ∀ c : Char, 128 ≤ c.toNat →
    (if (upper c).toNat < 128 then (upper c).toUpper else upper (upper c)) = upper c

section Cased
variable [CaseTables]

/-- Go `unicode.ToLower`: the ASCII letters directly, every other character
through the table. -/
def lowerChar (c : Char) : Char :=
  if c.toNat < 128 then c.toLower else CaseTables.lower c

/-- Go `unicode.ToUpper`. -/
def upperChar (c : Char) : Char :=
  if c.toNat < 128 then c.toUpper else CaseTables.upper c

/-- Go `strings.ToLower`. -/
def ToLower (s : Str) : Str := s.map lowerChar

/-- Go `strings.ToUpper`. -/
def ToUpper (s : Str) : Str := s.map upperChar

/-- Go `strings.Split(s, sep)` for a one-character separator; the result is never empty. -/
def Split : Str → Char → List Str
  | [], _ => [[]]
  | c :: cs, sep =>
    if c = sep then [] :: Split cs sep
    else
      match Split cs sep with
      | [] => [[c]]
      | x :: xs => (c :: x) :: xs

/-- The runtime panic of an index expression `a[i]` with `i` out of range. -/
def indexOutOfRange : Str := "runtime error: index out of range".toList

/-- The runtime panic of calling a nil function value. -/
def nilDereference : Str :=
  "runtime error: invalid memory address or nil pointer dereference".toList

/-! Requests, response writers, handlers -/

/-- A Go `map[string]string`, as an association list with unique keys. -/
abbrev ParamMap := List (Str × Str)

/-- Map assignment `m[k] = v`. -/
def ParamMap.set (m : ParamMap) (k v : Str) : ParamMap :=
  (k, v) :: m.filter (fun kv => decide (kv.1 ≠ k))

/-- Map index `m[k]`, with the zero value `""` for an absent key. -/
def ParamMap.get (m : ParamMap) (k : Str) : Str :=
  match m.lookup k with
  | some v => v
  | none => []

/-- The part of `*http.Request` the router reads: the method, `URL.Path`, and the
context value stored under `contextVar("params")`. -/
structure Request where
  Method : Str
  Path : Str
  params : Option ParamMap := none
  RemoteAddr : Str := []
deriving DecidableEq, Repr

/-- The interface `http.ResponseWriter`: `Header().Add`, `Write` (with the number
of bytes it reports) and `WriteHeader`. -/
class ResponseWriter (W : Type) where
  HeaderAdd : W → Str → Str → W
  Write : W → Str → W × Nat
  WriteHeader : W → Nat → W

/-- A non-nil `http.HandlerFunc`: it serves a request on any response writer, and
either returns or panics. -/
structure HandlerFunc : Type 1 where
  call : (W : Type) → [ResponseWriter W] → W → Request → Except Str W

/-- Calling a possibly nil handler, `hf.ServeHTTP(rw, r)`. -/
def HandlerFunc.ServeHTTP {W : Type} [ResponseWriter W] (hf : Option HandlerFunc)
    (rw : W) (r : Request) : Except Str W :=
  match hf with
  | none => .error nilDereference
  | some h => h.call W rw r

/-- Go `type Middleware func(http.HandlerFunc) http.HandlerFunc`. -/
abbrev Middleware := Option HandlerFunc → Option HandlerFunc

/-- Number of bytes of a string in UTF-8. -/
def byteLen (s : Str) : Nat := (s.map Char.utf8Size).sum

/-- The recorder of `net/http/httptest`, the response writer the tests use. -/
structure ResponseRecorder where
  Code : Nat := 200
  HeaderMap : List (Str × Str) := []
  Body : Str := []
  wroteHeader : Bool := false
deriving DecidableEq, Repr

/-- The recorder keeps the first status code only. -/
def ResponseRecorder.WriteHeader (rw : ResponseRecorder) (code : Nat) : ResponseRecorder :=
  if rw.wroteHeader then rw else { rw with Code := code, wroteHeader := true }

/-- The recorder's write: an implicit `WriteHeader(200)`, then the body grows. -/
def ResponseRecorder.Write (rw : ResponseRecorder) (b : Str) : ResponseRecorder × Nat :=
  let rw1 := rw.WriteHeader 200
  ({ rw1 with Body := rw1.Body ++ b }, byteLen b)

instance : ResponseWriter ResponseRecorder where
  HeaderAdd rw k v := { rw with HeaderMap := rw.HeaderMap ++ [(k, v)] }
  Write := ResponseRecorder.Write
  WriteHeader := ResponseRecorder.WriteHeader

/-! json.go -/

/-- The values of Go type `any` that the repository puts into a `JSON` map:
strings, integers, string slices, and a channel (which `encoding/json` rejects). -/
inductive JSONValue where
  | str (s : Str)
  | int (n : Int)
  | strs (xs : List Str)
  | chan
deriving DecidableEq, Repr

/-- Go `type JSON map[string]any`, as an association list with distinct keys. -/
abbrev JSON := List (Str × JSONValue)

/-- Byte-wise order of strings, the order in which `encoding/json` emits map keys. -/
def strLe : Str → Str → Bool
  | [], _ => true
  | _ :: _, [] => false
  | a :: as, b :: bs => decide (a < b) || (decide (a = b) && strLe as bs)

/-- Insertion of a map entry into a key-sorted list of entries. -/
def insertEntry (e : Str × JSONValue) : JSON → JSON
  | [] => [e]
  | x :: xs => if strLe e.1 x.1 then e :: x :: xs else x :: insertEntry e xs

/-- The entries of a map in key order. -/
def sortEntries (s : JSON) : JSON := s.foldr insertEntry []

/-- Hexadecimal digit. -/
def hexDigit (n : Nat) : Char := "0123456789abcdef".toList.getD n '0'

/-- Escaping of one character inside a JSON string, as `encoding/json` does with
its default HTML-safe setting. -/
def escapeChar (c : Char) : Str :=
  if c = '"' then "\\\"".toList
  else if c = '\\' then "\\\\".toList
  else if c = '\n' then "\\n".toList
  else if c = '\r' then "\\r".toList
  else if c = '\t' then "\\t".toList
  else if c.toNat < 32 ∨ c = '<' ∨ c = '>' ∨ c = '&' ∨ c.toNat = 8232 ∨ c.toNat = 8233 then
    "\\u".toList ++ [hexDigit (c.toNat / 4096 % 16), hexDigit (c.toNat / 256 % 16),
      hexDigit (c.toNat / 16 % 16), hexDigit (c.toNat % 16)]
  else [c]

/-- A JSON string literal. -/
def quote (s : Str) : Str := '"' :: (s.flatMap escapeChar ++ ['"'])

/-- Comma-separated concatenation. -/
def joinComma : List Str → Str
  | [] => []
  | [x] => x
  | x :: y :: rest => x ++ ',' :: joinComma (y :: rest)

/-- Decimal rendering of an integer. -/
def formatInt (n : Int) : Str :=
  if n < 0 then '-' :: Nat.toDigits 10 n.natAbs else Nat.toDigits 10 n.natAbs

/-- Serialisation of one value; a channel is an unsupported type. -/
def JSONValue.marshal : JSONValue → Except Str Str
  | .str s => .ok (quote s)
  | .int n => .ok (formatInt n)
  | .strs xs => .ok ('[' :: (joinComma (xs.map quote) ++ [']']))
  | .chan => .error "json: unsupported type: chan int".toList

/-- Serialisation of the entries of a map, in the order given. -/
def marshalEntries : JSON → Except Str (List Str)
  | [] => .ok []
  | (k, v) :: rest =>
    match v.marshal with
    | .error e => .error e
    | .ok sv =>
      match marshalEntries rest with
      | .error e => .error e
      | .ok srest => .ok ((quote k ++ ':' :: sv) :: srest)

/-- Go `json.Marshal` on a `JSON` map: an object with its keys in sorted order. -/
def Marshal (s : JSON) : Except Str Str :=
  match marshalEntries (sortEntries s) with
  | .error e => .error e
  | .ok parts => .ok ('{' :: (joinComma parts ++ ['}']))

/-- `AddJsonHeader` of json.go. -/
def AddJsonHeader {W : Type} [ResponseWriter W] (rw : W) : W :=
  ResponseWriter.HeaderAdd rw "Content-Type".toList "application/json".toList

/-- `JSON.dump` of json.go: the serialised map, or the fixed error body together
with the error. -/
def JSON.dump (s : JSON) : Str × Option Str :=
  match Marshal s with
  | .error err => ("\x7b\"error\": \"internal server error\"\x7d".toList, some err)
  | .ok serialized => (serialized, none)

/-- `JSON.Write` of json.go. -/
def JSON.Write {W : Type} [ResponseWriter W] (s : JSON) (w : W) (status : Nat) : W :=
  let w1 := AddJsonHeader w
  let (res, err) := s.dump
  let w2 := if err ≠ none then ResponseWriter.WriteHeader w1 500
            else ResponseWriter.WriteHeader w1 status
  (ResponseWriter.Write w2 res).1

/-! endpoint.go -/

/-- The struct `endpoint`. -/
structure endpoint : Type 1 where
  method : Str
  pattern : Str
  path : List Str
  handler : Option HandlerFunc
  wildcard : Bool
  params : Bool

/-- The loop `for i, p := range e.path` of `endpoint.match`, entered at index `i`
with the remaining pattern segments; the result is the final value of `hit`.
The index expression `path[i]` is evaluated before the prefix test. -/
def endpoint.matchParts (path : List Str) : Nat → List Str → Except Str Bool
  | _, [] => .ok true
  | i, p :: ps =>
    if p = "*".toList then .ok true
    else
      match path[i]? with
      | none => .error indexOutOfRange
      | some x =>
        if x ≠ p ∧ HasPrefix p "<".toList = false then .ok false
        else endpoint.matchParts path (i + 1) ps

/-- The method `endpoint.match`: the triple `(hf, notallowed, params)` of its named
results, or a runtime panic. -/
def endpoint.match_ (e : endpoint) (method : Str) (path : List Str) :
    Except Str (Option HandlerFunc × Bool × Bool) :=
  if path.length ≠ e.path.length ∧ e.wildcard = false then .ok (none, false, false)
  else
    match endpoint.matchParts path 0 e.path with
    | .error err => .error err
    | .ok hit =>
      if hit = false then .ok (none, false, false)
      else if e.method ≠ "*".toList ∧ method ≠ e.method then .ok (none, true, false)
      else .ok (e.handler, false, e.params)

/-- The structural part of `endpoint.match`: the segment count is accepted and the
segment walk ends with `hit` still true. -/
def endpoint.structural (e : endpoint) (path : List Str) : Prop :=
  ¬ (path.length ≠ e.path.length ∧ e.wildcard = false) ∧
    endpoint.matchParts path 0 e.path = .ok true

/-! router.go -/

/-- The struct `Router`. -/
structure Router : Type 1 where
  Prefix : Str := []
  routes : List endpoint := []
  middleware : List Middleware := []
  NotFound : Option HandlerFunc
  MethodNotAllowed : Option HandlerFunc

/-- The default not-found handler installed by `New`. -/
def defaultNotFound : HandlerFunc :=
  ⟨fun _ _ w _ => .ok (JSON.Write [("error".toList, .str "not found".toList)] w 404)⟩

/-- The default method-not-allowed handler installed by `New`. -/
def defaultMethodNotAllowed : HandlerFunc :=
  ⟨fun _ _ w _ => .ok (JSON.Write [("error".toList, .str "method not allowed".toList)] w 405)⟩

/-- The constructor `New`. -/
def New : Router :=
  { routes := [], NotFound := some defaultNotFound,
    MethodNotAllowed := some defaultMethodNotAllowed }

/-- The method `Router.UseMiddleware`. -/
def Router.UseMiddleware (r : Router) (mw : Middleware) : Router :=
  { r with
    NotFound := mw r.NotFound
    MethodNotAllowed := mw r.MethodNotAllowed
    middleware := r.middleware ++ [mw] }

/-- The loop of `urlParams` over the pattern parts, entered at index `i`. -/
def urlParams.loop (pathParts : List Str) : Nat → List Str → ParamMap → Except Str ParamMap
  | _, [], params => .ok params
  | i, p :: ps, params =>
    if HasPrefix p "<".toList then
      match pathParts[i]? with
      | none => .error indexOutOfRange
      | some v => urlParams.loop pathParts (i + 1) ps (params.set (Trim p "<>".toList) v)
    else urlParams.loop pathParts (i + 1) ps params

/-- The function `urlParams`. -/
def urlParams (pattern path : Str) : Except Str ParamMap :=
  let pathParts := Split (Trim path "/".toList) '/'
  let patternParts := Split (ToLower (Trim pattern "/".toList)) '/'
  urlParams.loop pathParts 0 patternParts []

/-- The function `Param`. -/
def Param (r : Request) (key : Str) : Str :=
  match r.params with
  | none => []
  | some value => value.get key

/-- The loop `for _, v := range ro.routes` of `ServeHTTP`.  The second argument is
the current value of the variable `notallowed`, which every iteration assigns
anew.  The result is the handler to call with its request, or the value of
`notallowed` after the last iteration. -/
def Router.ServeHTTP.scan (r : Request) (path : List Str) :
    List endpoint → Bool → Except Str ((HandlerFunc × Request) ⊕ Bool)
  | [], notallowed => .ok (.inr notallowed)
  | v :: vs, _ =>
    match v.match_ r.Method path with
    | .error err => .error err
    | .ok (some hf, _, hasParams) =>
      if hasParams then
        match urlParams v.pattern r.Path with
        | .error err => .error err
        | .ok params => .ok (.inl (hf, { r with params := some params }))
      else .ok (.inl (hf, r))
    | .ok (none, notallowed, _) => Router.ServeHTTP.scan r path vs notallowed

/-- The method `Router.ServeHTTP`. -/
def Router.ServeHTTP {W : Type} [ResponseWriter W] (ro : Router) (rw : W) (r : Request) :
    Except Str W :=
  let path := Split (ToLower (Trim r.Path "/".toList)) '/'
  match Router.ServeHTTP.scan r path ro.routes false with
  | .error err => .error err
  | .ok (.inl (hf, r1)) => hf.call W rw r1
  | .ok (.inr notallowed) =>
    if notallowed then HandlerFunc.ServeHTTP ro.MethodNotAllowed rw r
    else HandlerFunc.ServeHTTP ro.NotFound rw r

/-- The loop of `parsePattern` over the segments still to inspect; `p` is the whole
segment list and `pattern` the string given to `parsePattern`. -/
def parsePattern.loop (pattern : Str) (p : List Str) : List Str → Except Str (Bool × List Str)
  | [] => .ok (false, p)
  | s :: rest =>
    let pre := HasPrefix s "<".toList
    let suf := HasSuffix s ">".toList
    if pre || suf then
      if !(pre && suf) then .error ("malformed pattern: ".toList ++ pattern)
      else .ok (true, p)
    else parsePattern.loop pattern p rest

/-- The function `parsePattern`. -/
def parsePattern (pattern : Str) : Except Str (Bool × List Str) :=
  let p := Split (ToLower (Trim pattern "/".toList)) '/'
  parsePattern.loop pattern p p

/-- The path `HandleFunc` registers: the router's prefix is put in front and a
leading slash is ensured. -/
def Router.fullPath (r : Router) (path : Str) : Str :=
  let path1 :=
    if r.Prefix ≠ [] then Trim r.Prefix "/".toList ++ "/".toList ++ TrimLeft path "/".toList
    else path
  if HasPrefix path1 "/".toList = false then "/".toList ++ path1 else path1

/-- The duplicate check of `HandleFunc`: the loop over the routes already
registered. -/
def Router.HandleFunc.check (method path : Str) (p : List Str) : List endpoint → Except Str Unit
  | [] => .ok ()
  | v :: vs =>
    match v.match_ method p with
    | .error err => .error err
    | .ok (some _, _, _) =>
      .error ("duplicate route and method: ".toList ++ path ++ ", ".toList ++ method)
    | .ok (none, _, _) => Router.HandleFunc.check method path p vs

/-- The method `Router.HandleFunc`: the router after the registration, or a panic. -/
def Router.HandleFunc (r : Router) (method path : Str) (f : Option HandlerFunc) :
    Except Str Router :=
  let path := r.fullPath path
  match parsePattern path with
  | .error err => .error err
  | .ok (hasparams, p) =>
    match Router.HandleFunc.check method path p r.routes with
    | .error err => .error err
    | .ok _ =>
      let f := r.middleware.foldl (fun g mw => mw g) f
      match p.getLast? with
      | none => .error indexOutOfRange
      | some last =>
        .ok { r with routes := r.routes ++ [{
                method := ToUpper method
                pattern := path
                path := p
                handler := f
                wildcard := decide (last = "*".toList)
                params := hasparams }] }

/-- The method `Router.Handle`: an `http.Handler` is registered through its
`ServeHTTP` method. -/
def Router.Handle (r : Router) (method path : Str) (h : HandlerFunc) : Except Str Router :=
  r.HandleFunc method path (some h)

/-- A router seen as an `http.Handler`. -/
def Router.asHandler (ro : Router) : HandlerFunc :=
  ⟨fun _ _ rw r => ro.ServeHTTP rw r⟩

/-- The methods of an endpoint list that routing compares: stored method and
segment sequence. -/
def endpoint.key (e : endpoint) : Str × List Str := (e.method, e.path)

/-! Registration sequences and fixtures -/

/-- A sequence of `HandleFunc` calls `(method, path, handler)`, made in order; it
stops at the first call that panics. -/
def Router.handleAll (r : Router) : List (Str × Str × Option HandlerFunc) → Except Str Router
  | [] => .ok r
  | (method, path, f) :: rest =>
    match r.HandleFunc method path f with
    | .error err => .error err
    | .ok r1 => Router.handleAll r1 rest

/-- An endpoint produced by a successful registration: some `HandleFunc` call
returned and appended it to the table. -/
def endpoint.Registered (e : endpoint) : Prop :=
  ∃ (r0 r1 : Router) (method path : Str) (f : Option HandlerFunc),
    r0.HandleFunc method path f = .ok r1 ∧ r1.routes = r0.routes ++ [e]

/-- A pattern is well formed when each of its segments has the opening delimiter
exactly when it has the closing one. -/
def wellFormed (pattern : Str) : Bool :=
  (Split (ToLower (Trim pattern "/".toList)) '/').all
    (fun s => HasPrefix s "<".toList == HasSuffix s ">".toList)

/-- A handler that answers with the given status code, as the handlers of the
router tests do. -/
def statusHandler (code : Nat) : HandlerFunc :=
  ⟨fun _ _ w _ => .ok (ResponseWriter.WriteHeader w code)⟩

/-- A handler that writes `Param(r, key)` as the response body. -/
def paramHandler (key : Str) : HandlerFunc :=
  ⟨fun _ _ w r => .ok (ResponseWriter.Write w (Param r key)).1⟩

/-- What a caller of `endpoint.match` can test on its results: whether `hf` is
non-nil, and the two flags. -/
def endpoint.outcome (e : endpoint) (method : Str) (path : List Str) :
    Except Str (Bool × Bool × Bool) :=
  match e.match_ method path with
  | .error err => .error err
  | .ok (hf, notallowed, params) => .ok (hf.isSome, notallowed, params)

/-- The segments of the registered pattern as written, before lower-casing. -/
def endpoint.written (e : endpoint) : List Str := Split (Trim e.pattern "/".toList) '/'

/-- The segments of the request path in their original letter case, the
`pathParts` of `urlParams`. -/
def Request.segments (r : Request) : List Str := Split (Trim r.Path "/".toList) '/'

/-- The normalised path `ServeHTTP` matches against: trimmed, lower-cased, split. -/
def Request.normalised (r : Request) : List Str :=
  Split (ToLower (Trim r.Path "/".toList)) '/'

/-- A fresh recorder, `httptest.NewRecorder()`. -/
def NewRecorder : ResponseRecorder := {}

/-- A request with the given method and path, `httptest.NewRequest(method, path, nil)`. -/
def NewRequest (method path : String) : Request := { Method := method.toList, Path := path.toList }

/-- The endpoint that `GET /api/<a>/<b>` registers on a fresh router. -/
def abEndpoint : endpoint :=
  { method := "GET".toList, pattern := "/api/<a>/<b>".toList,
    path := ["api".toList, "<a>".toList, "<b>".toList],
    handler := some (statusHandler 200), wildcard := false, params := true }

/-- The endpoint that `GET /api/<Id>/*` registers on a fresh router. -/
def idWildcardEndpoint : endpoint :=
  { method := "GET".toList, pattern := "/api/<Id>/*".toList,
    path := ["api".toList, "<id>".toList, "*".toList],
    handler := some (statusHandler 200), wildcard := true, params := true }

/-- The endpoint that `GET /api/*` registers on a fresh router. -/
def wildcardEndpoint : endpoint :=
  { method := "GET".toList, pattern := "/api/*".toList,
    path := ["api".toList, "*".toList],
    handler := some (statusHandler 200), wildcard := true, params := false }

/-- The endpoint that `* /api` registers on a fresh router. -/
def anyMethodEndpoint : endpoint :=
  { method := "*".toList, pattern := "/api".toList, path := ["api".toList],
    handler := some (statusHandler 200), wildcard := false, params := false }

/-- A fresh router with one endpoint in its table. -/
def routerOf (e : endpoint) : Router := { New with routes := [e] }

/-! middleware.go -/

/-- The struct `logger`: the embedded response writer with the captured status
and size. -/
structure logger (W : Type) where
  ResponseWriter : W
  status : Nat := 0
  size : Nat := 0

/-- The method `logger.WriteHeader`. -/
def logger.WriteHeader {W : Type} [Snug.ResponseWriter W] (l : logger W) (s : Nat) : logger W :=
  { l with ResponseWriter := Snug.ResponseWriter.WriteHeader l.ResponseWriter s, status := s }

/-- The method `logger.Write`: the size reported by the embedded writer is
assigned to the field `size`. -/
def logger.Write {W : Type} [Snug.ResponseWriter W] (l : logger W) (b : Str) : logger W × Nat :=
  let (w, size) := Snug.ResponseWriter.Write l.ResponseWriter b
  ({ l with ResponseWriter := w, size := size }, size)

/-- A `logger` is a response writer: `Header` is promoted from the embedded
writer, the other two methods are its own. -/
instance {W : Type} [Snug.ResponseWriter W] : Snug.ResponseWriter (logger W) where
  HeaderAdd l k v := { l with ResponseWriter := Snug.ResponseWriter.HeaderAdd l.ResponseWriter k v }
  Write := logger.Write
  WriteHeader := logger.WriteHeader

/-- The arguments of the `log.Printf` call of `Logging`; `URL` stands for
`r.URL.String()`, which for a request made of a path is that path. -/
structure LogEntry where
  RemoteAddr : Str
  Method : Str
  status : Nat
  size : Nat
  URL : Str
deriving DecidableEq, Repr

/-- The body of the handler `Logging(next)` returns: the writer after `next` has
run on the wrapping logger, and the log line emitted. -/
def Logging.serve {W : Type} [Snug.ResponseWriter W] (next : Option HandlerFunc) (rw : W)
    (r : Request) : Except Str (W × LogEntry) :=
  let w : logger W := { ResponseWriter := rw }
  match HandlerFunc.ServeHTTP next w r with
  | .error err => .error err
  | .ok w1 =>
    .ok (w1.ResponseWriter,
      { RemoteAddr := r.RemoteAddr, Method := r.Method, status := w1.status, size := w1.size,
        URL := r.Path })

/-- The middleware `Logging`. -/
def Logging : Middleware := fun next =>
  some ⟨fun _ _ rw r =>
    match Logging.serve next rw r with
    | .error err => .error err
    | .ok (w, _) => .ok w⟩

/-! fitting.go -/

/-- Go `strings.Join`. -/
def Join : List Str → Str → Str
  | [], _ => []
  | [x], _ => x
  | x :: y :: rest, sep => x ++ sep ++ Join (y :: rest) sep

/-- Go `fmt.Errorf(format)` called without arguments, as `Fit` calls it: the text
of the error.  `%%` is a percent sign, a verb finds no argument, and a percent
sign at the end has no verb.  Flags, widths and argument indexes between the
percent sign and the verb are not modelled. -/
def Errorf : Str → Str
  | [] => []
  | [c] => if c = '%' then "%!(NOVERB)".toList else [c]
  | c :: d :: rest =>
    if c = '%' then
      if d = '%' then '%' :: Errorf rest
      else "%!".toList ++ d :: ("(MISSING)".toList ++ Errorf rest)
    else c :: Errorf (d :: rest)

/-- What `Fit` reads of one struct field through reflection: the values of its
`snug` and `json` tags, if present, and whether the field holds its zero value
once the body has been decoded. -/
structure StructField where
  snug : Option Str
  json : Option Str
  isZero : Bool
deriving DecidableEq, Repr

/-- The message `Fit` builds for a field name. -/
def requiredMessage (fieldName : Str) : Str :=
  "'".toList ++ fieldName ++ "' is a required field".toList

/-- The inner loop of `Fit` over the tag list of one field. -/
def Fit.tagLoop (fieldName : Str) (isZero : Bool) : List Str → List Str → List Str
  | [], errMsgs => errMsgs
  | tag :: rest, errMsgs =>
    if tag = "required".toList ∧ isZero = true then
      Fit.tagLoop fieldName isZero rest (errMsgs ++ [requiredMessage fieldName])
    else Fit.tagLoop fieldName isZero rest errMsgs

/-- The outer loop of `Fit` over the struct fields. -/
def Fit.fieldLoop : List StructField → List Str → Except Str (List Str)
  | [], errMsgs => .ok errMsgs
  | fld :: rest, errMsgs =>
    match fld.snug with
    | none => Fit.fieldLoop rest errMsgs
    | some tags =>
      match fld.json with
      | none => .error "missing tag: json".toList
      | some jtags =>
        match Split jtags ',' with
        | [] => .error indexOutOfRange
        | fieldName :: _ =>
          Fit.fieldLoop rest (Fit.tagLoop fieldName fld.isZero (Split tags ',') errMsgs)

/-- The function `Fit`.  Its input is the outcome of decoding the body into the
struct: the decoder's error, or the fields of the struct after decoding.  The
result is the text of the returned error (`none` for nil), or a panic. -/
def Fit (decoded : Except Str (List StructField)) : Except Str (Option Str) :=
  match decoded with
  | .error err => .ok (some ("invalid json: ".toList ++ err))
  | .ok fields =>
    match Fit.fieldLoop fields [] with
    | .error err => .error err
    | .ok errMsgs =>
      if errMsgs.length ≠ 0 then .ok (some (Errorf (Join errMsgs ", ".toList)))
      else .ok none

/-! Further fixtures -/

/-- A sequence of `UseMiddleware` calls, made in order. -/
def Router.useAll (r : Router) (ms : List Middleware) : Router :=
  ms.foldl Router.UseMiddleware r

/-- A middleware that adds the header `X-Trace: name` and then calls `next`. -/
def traceMiddleware (name : String) : Middleware := fun next =>
  some ⟨fun _ _ rw r =>
    HandlerFunc.ServeHTTP next (ResponseWriter.HeaderAdd rw "X-Trace".toList name.toList) r⟩

/-- A handler that writes the status 200 and then the body in two `Write` calls,
`ab` and `c`. -/
def twoWrites : HandlerFunc :=
  ⟨fun _ _ w _ =>
    let w1 := ResponseWriter.WriteHeader w 200
    let w2 := (ResponseWriter.Write w1 "ab".toList).1
    .ok (ResponseWriter.Write w2 "c".toList).1⟩

/-- The handler of `TestLogging`: status 200 and one `Write` of `test`. -/
def oneWrite : HandlerFunc :=
  ⟨fun _ _ w _ =>
    let w1 := ResponseWriter.WriteHeader w 200
    .ok (ResponseWriter.Write w1 "test".toList).1⟩

/-- The messages `Fit` reports: for each field, in declaration order, that has a
`snug` tag and holds its zero value, one message per entry `required` of the tag,
built from the first entry of the `json` tag. -/
def requiredMissing (fields : List StructField) : List Str :=
  fields.flatMap (fun fld =>
    match fld.snug, fld.json with
    | some tags, some jtags =>
      if fld.isZero = true then
        ((Split tags ',').filter (fun tag => decide (tag = "required".toList))).map
          (fun _ => requiredMessage ((Split jtags ',').headD []))
      else []
    | _, _ => [])

/-- The endpoint that `GET /api` registers on a fresh router. -/
def apiEndpoint : endpoint :=
  { method := "GET".toList, pattern := "/api".toList, path := ["api".toList],
    handler := some (statusHandler 200), wildcard := false, params := false }

/-- The router of `TestMiddleware` after its two registrations, with the tracing
middleware `1` in the place of the counting one. -/
def middlewareTestRouter : Router :=
  { New.UseMiddleware (traceMiddleware "1") with
    routes := [{ method := "GET".toList, pattern := "/test1".toList, path := ["test1".toList],
                 handler := traceMiddleware "1" (some (statusHandler 200)),
                 wildcard := false, params := false },
               { method := "GET".toList, pattern := "/test2".toList, path := ["test2".toList],
                 handler := traceMiddleware "1" (some (statusHandler 201)),
                 wildcard := false, params := false }] }

/-- The router of the counterexample on middleware order, after the registration
of `GET /`. -/
def tracedRouter : Router :=
  { New.useAll [traceMiddleware "1", traceMiddleware "2"] with
    routes := [{ method := "GET".toList, pattern := "/".toList, path := [[]],
                 handler := traceMiddleware "2" (traceMiddleware "1" (some (statusHandler 200))),
                 wildcard := false, params := false }] }

/-- The child router of `TestHandleSubrouter`: prefix `/greet/` and the route
`GET /apua`, stored as `/greet/apua`. -/
def greetapi : Router :=
  { New with
    Prefix := "/greet/".toList
    routes := [{ method := "GET".toList, pattern := "/greet/apua".toList,
                 path := ["greet".toList, "apua".toList],
                 handler := some (statusHandler 202), wildcard := false, params := false }] }

/-- The parent router of `TestHandleSubrouter` after `Handle("*", "/greet/*", greetapi)`. -/
def mainRouter : Router :=
  { New with
    routes := [{ method := "*".toList, pattern := "/greet/*".toList,
                 path := ["greet".toList, "*".toList],
                 handler := some greetapi.asHandler, wildcard := true, params := false }] }

/-- The struct of `TestFitRequired` after a body without `name` has been decoded:
`name` is required and left at its zero value, `age` is required and set. -/
def nameMissing : List StructField :=
  [{ snug := some "required".toList, json := some "name".toList, isZero := true },
   { snug := some "required".toList, json := some "age".toList, isZero := false }]

/-- The router after `GET /api` and then `* /api` have been registered on a fresh
router. -/
def twoRoutes : Router := { New with routes := [apiEndpoint, anyMethodEndpoint] }

end Cased

/-- The case tables that leave every character outside ASCII as it is.  The
evaluations at concrete inputs below use ASCII strings only, for which no table
is consulted (`ToLower_of_ascii`, `ToUpper_of_ascii`). -/
instance asciiTables : CaseTables where
  lower := id
  upper := id
  lower_marks := by
    intro c hc
    have h : ∀ d : Char, d.toNat < 128 → c ≠ d := by
      intro d hd hcd
      rw [hcd] at hc
      omega
    exact ⟨h '/' (by decide), h '<' (by decide), h '>' (by decide), h '*' (by decide)⟩
  upper_stable := by
    intro c hc
    have h : ¬ c.toNat < 128 := by omega
    simp [h]

/-! Lemmas on strings -/

theorem Char.toNat_ofNat_small (n : Nat) (h : n < 55296) : (Char.ofNat n).toNat = n := by
  have hv : n.isValidChar := Or.inl h
  simp [Char.ofNat, hv, Char.toNat, Char.ofNatAux]
  rfl

/-- Lower-casing changes no character outside the letters: a character whose code
is below `A` or above `z` is only the image of itself. -/
theorem toLower_eq_of_not_letter (c d : Char) (hd : d.toNat < 65 ∨ 122 < d.toNat)
    (h : c.toLower = d) : c = d := by
  simp only [Char.toLower] at h
  by_cases hc : c.toNat ≥ 65 ∧ c.toNat ≤ 90
  · rw [if_pos hc] at h
    exfalso
    have h2 := congrArg Char.toNat h
    rw [Char.toNat_ofNat_small _ (by omega)] at h2
    omega
  · rw [if_neg hc] at h; exact h

theorem toLower_eq_iff (c d : Char) (hd : d.toNat < 65 ∨ 122 < d.toNat) :
    c.toLower = d ↔ c = d := by
  constructor
  · exact toLower_eq_of_not_letter c d hd
  · rintro rfl
    simp only [Char.toLower]
    rw [if_neg]
    omega

theorem toLower_slash (c : Char) : c.toLower = '/' ↔ c = '/' :=
  toLower_eq_iff c '/' (by decide)

theorem toLower_lt (c : Char) : c.toLower = '<' ↔ c = '<' :=
  toLower_eq_iff c '<' (by decide)

theorem toLower_gt (c : Char) : c.toLower = '>' ↔ c = '>' :=
  toLower_eq_iff c '>' (by decide)

theorem toLower_star (c : Char) : c.toLower = '*' ↔ c = '*' :=
  toLower_eq_iff c '*' (by decide)

theorem Split_ne_nil (s : Str) (sep : Char) : Split s sep ≠ [] := by
  induction s with
  | nil => simp [Split]
  | cons c cs ih =>
    simp only [Split]
    split
    · simp
    · split <;> simp

theorem Split_map (f : Char → Char) (sep : Char) (hf : ∀ c, f c = sep ↔ c = sep) (s : Str) :
    Split (s.map f) sep = (Split s sep).map (List.map f) := by
  induction s with
  | nil => simp [Split]
  | cons c cs ih =>
    simp only [List.map_cons, Split, hf]
    by_cases hc : c = sep
    · simp [hc, ih]
    · simp only [hc, if_false, ih]
      cases hsp : Split cs sep with
      | nil => simp
      | cons x xs => simp

theorem TrimLeft_map (f : Char → Char) (cutset : Str) (hf : ∀ c, f c ∈ cutset ↔ c ∈ cutset)
    (s : Str) : TrimLeft (s.map f) cutset = (TrimLeft s cutset).map f := by
  induction s with
  | nil => simp [TrimLeft]
  | cons c cs ih =>
    simp only [TrimLeft, List.map_cons, List.dropWhile_cons, hf] at ih ⊢
    by_cases hc : c ∈ cutset
    · simp [hc, ih]
    · simp [hc]

theorem Trim_map (f : Char → Char) (cutset : Str) (hf : ∀ c, f c ∈ cutset ↔ c ∈ cutset)
    (s : Str) : Trim (s.map f) cutset = (Trim s cutset).map f := by
  simp only [Trim, TrimRight]
  rw [TrimLeft_map f cutset hf, ← List.map_reverse, TrimLeft_map f cutset hf, List.map_reverse]

section Cased
variable [CaseTables]

/-- The lower-case form of a character is one of the marks `/`, `<`, `>`, `*` only
for the mark itself. -/
theorem lowerChar_eq_iff (c d : Char) (hd : d = '/' ∨ d = '<' ∨ d = '>' ∨ d = '*') :
    lowerChar c = d ↔ c = d := by
  have hdn : d.toNat < 65 := by
    rcases hd with rfl | rfl | rfl | rfl <;> decide
  by_cases hc : c.toNat < 128
  · simp only [lowerChar, if_pos hc]
    exact toLower_eq_iff c d (Or.inl hdn)
  · simp only [lowerChar, if_neg hc]
    obtain ⟨h1, h2, h3, h4⟩ := CaseTables.lower_marks c (by omega)
    constructor
    · intro h
      rcases hd with rfl | rfl | rfl | rfl
      · exact absurd h h1
      · exact absurd h h2
      · exact absurd h h3
      · exact absurd h h4
    · intro h
      rw [h] at hc
      omega

theorem lowerChar_slash (c : Char) : lowerChar c = '/' ↔ c = '/' :=
  lowerChar_eq_iff c '/' (Or.inl rfl)

theorem lowerChar_lt (c : Char) : lowerChar c = '<' ↔ c = '<' :=
  lowerChar_eq_iff c '<' (Or.inr (Or.inl rfl))

theorem lowerChar_gt (c : Char) : lowerChar c = '>' ↔ c = '>' :=
  lowerChar_eq_iff c '>' (Or.inr (Or.inr (Or.inl rfl)))

theorem lowerChar_star (c : Char) : lowerChar c = '*' ↔ c = '*' :=
  lowerChar_eq_iff c '*' (Or.inr (Or.inr (Or.inr rfl)))

/-- On ASCII strings `ToLower` consults no table. -/
theorem ToLower_of_ascii (s : Str) (h : ∀ c ∈ s, c.toNat < 128) :
    ToLower s = s.map Char.toLower := by
  simp only [ToLower]
  apply List.map_congr_left
  intro c hc
  simp only [lowerChar, if_pos (h c hc)]

/-- On ASCII strings `ToUpper` consults no table. -/
theorem ToUpper_of_ascii (s : Str) (h : ∀ c ∈ s, c.toNat < 128) :
    ToUpper s = s.map Char.toUpper := by
  simp only [ToUpper]
  apply List.map_congr_left
  intro c hc
  simp only [upperChar, if_pos (h c hc)]

end Cased

theorem toUpper_stable (c : Char) (hc : c.toNat < 128) :
    c.toUpper.toNat < 128 ∧ c.toUpper.toUpper = c.toUpper := by
  simp only [Char.toUpper]
  by_cases hl : c.toNat ≥ 97 ∧ c.toNat ≤ 122
  · rw [if_pos hl]
    have hn : (Char.ofNat (c.toNat - 32)).toNat = c.toNat - 32 :=
      Char.toNat_ofNat_small _ (by omega)
    refine ⟨by omega, ?_⟩
    rw [hn, if_neg (by omega)]
  · rw [if_neg hl]
    exact ⟨hc, by rw [if_neg hl]⟩

section Cased
variable [CaseTables]

/-- Upper-casing an upper-cased character changes nothing. -/
theorem upperChar_upperChar (c : Char) : upperChar (upperChar c) = upperChar c := by
  by_cases hc : c.toNat < 128
  · obtain ⟨h1, h2⟩ := toUpper_stable c hc
    simp only [upperChar, if_pos hc, if_pos h1, h2]
  · have h := CaseTables.upper_stable c (by omega)
    simp only [upperChar, if_neg hc]
    exact h

theorem ToUpper_ToUpper (s : Str) : ToUpper (ToUpper s) = ToUpper s := by
  simp only [ToUpper, List.map_map]
  apply List.map_congr_left
  intro c _
  exact upperChar_upperChar c

theorem Trim_ToLower_slash (s : Str) : Trim (ToLower s) "/".toList = ToLower (Trim s "/".toList) := by
  apply Trim_map
  intro c
  simp [lowerChar_slash]

theorem Trim_ToLower_angle (s : Str) :
    Trim (ToLower s) "<>".toList = ToLower (Trim s "<>".toList) := by
  apply Trim_map
  intro c
  simp [lowerChar_lt, lowerChar_gt]

/-- The segments of a lower-cased pattern are the lower-cased segments. -/
theorem Split_ToLower (s : Str) : Split (ToLower s) '/' = (Split s '/').map ToLower :=
  Split_map lowerChar '/' lowerChar_slash s

theorem HasPrefix_lt_ToLower (s : Str) :
    HasPrefix (ToLower s) "<".toList = HasPrefix s "<".toList := by
  cases s with
  | nil => rfl
  | cons c cs =>
    simp only [HasPrefix, ToLower, List.map_cons, String.toList, List.isPrefixOf]
    by_cases hc : c = '<'
    · subst hc
      rfl
    · have h2 : ¬ '<' = lowerChar c := fun h => hc ((lowerChar_lt c).1 h.symm)
      have h3 : ¬ '<' = c := fun h => hc h.symm
      simp [h2, h3]

theorem ToLower_eq_star (s : Str) : ToLower s = "*".toList ↔ s = "*".toList := by
  cases s with
  | nil => simp [ToLower]
  | cons c cs =>
    cases cs with
    | nil => simp [ToLower, lowerChar_star]
    | cons d ds => simp [ToLower]

end Cased

theorem Trim_cons_slash (s : Str) : Trim ('/' :: s) "/".toList = Trim s "/".toList := by
  simp [Trim, TrimLeft]

/-! Lemmas on `parsePattern` and `HandleFunc` -/

theorem parsePattern_loop_segments (pattern : Str) (p segs : List Str) (hp : Bool)
    (q : List Str) (h : parsePattern.loop pattern p segs = .ok (hp, q)) : q = p := by
  induction segs with
  | nil =>
    simp only [parsePattern.loop, Except.ok.injEq, Prod.mk.injEq] at h
    exact h.2.symm
  | cons s rest ih =>
    simp only [parsePattern.loop] at h
    split at h
    · split at h
      · exact absurd h (by simp)
      · simp only [Except.ok.injEq, Prod.mk.injEq] at h
        exact h.2.symm
    · exact ih h

theorem parsePattern_loop_false (pattern : Str) (p segs : List Str) (q : List Str)
    (h : parsePattern.loop pattern p segs = .ok (false, q)) :
    ∀ s ∈ segs, HasPrefix s "<".toList = false ∧ HasSuffix s ">".toList = false := by
  induction segs with
  | nil => simp
  | cons s rest ih =>
    simp only [parsePattern.loop] at h
    split at h
    · split at h
      · exact absurd h (by simp)
      · simp at h
    · rename_i hps
      intro t ht
      rcases List.mem_cons.1 ht with rfl | ht
      · simpa using hps
      · exact ih h t ht

theorem parsePattern_loop_true (pattern : Str) (p segs : List Str) (q : List Str)
    (h : parsePattern.loop pattern p segs = .ok (true, q)) :
    ∃ s ∈ segs, HasPrefix s "<".toList = true := by
  induction segs with
  | nil => simp [parsePattern.loop] at h
  | cons s rest ih =>
    simp only [parsePattern.loop] at h
    split at h
    · split at h
      · exact absurd h (by simp)
      · rename_i hboth
        refine ⟨s, List.mem_cons_self _ _, ?_⟩
        simp only [Bool.not_eq_true', Bool.not_eq_false, Bool.and_eq_true, Bool.not_and,
          not_or, Bool.not_eq_true] at hboth
        revert hboth
        cases HasPrefix s "<".toList <;> cases HasSuffix s ">".toList <;> simp
    · obtain ⟨t, ht, hpt⟩ := ih h
      exact ⟨t, List.mem_cons_of_mem _ ht, hpt⟩

theorem parsePattern_loop_no_prefix (pattern : Str) (p segs : List Str) (hp : Bool) (q : List Str)
    (h : parsePattern.loop pattern p segs = .ok (hp, q))
    (hno : ∀ s ∈ segs, HasPrefix s "<".toList = false) : hp = false := by
  cases hp with
  | false => rfl
  | true =>
    obtain ⟨s, hs, hps⟩ := parsePattern_loop_true pattern p segs q h
    rw [hno s hs] at hps
    exact absurd hps (by simp)

section Cased
variable [CaseTables]

/-- What a successful `parsePattern` returns: the segments of the lower-cased,
slash-trimmed pattern, and a flag that is set exactly when some segment starts
with the opening delimiter. -/
theorem parsePattern_ok (pattern : Str) (hp : Bool) (p : List Str)
    (h : parsePattern pattern = .ok (hp, p)) :
    p = Split (ToLower (Trim pattern "/".toList)) '/' ∧
    (hp = true ↔ ∃ s ∈ p, HasPrefix s "<".toList = true) := by
  simp only [parsePattern] at h
  have hq := parsePattern_loop_segments _ _ _ _ _ h
  refine ⟨hq, ?_⟩
  subst hq
  constructor
  · intro ht
    subst ht
    exact parsePattern_loop_true _ _ _ _ h
  · rintro ⟨s, hs, hps⟩
    cases hp with
    | true => rfl
    | false =>
      have := (parsePattern_loop_false _ _ _ _ h s hs).1
      rw [this] at hps
      exact absurd hps (by simp)

end Cased

theorem parsePattern_loop_wellFormed (pattern : Str) (p segs : List Str)
    (hwf : segs.all (fun s => HasPrefix s "<".toList == HasSuffix s ">".toList) = true) :
    ∃ hp, parsePattern.loop pattern p segs = .ok (hp, p) := by
  induction segs with
  | nil => exact ⟨false, rfl⟩
  | cons s rest ih =>
    simp only [List.all_cons, Bool.and_eq_true, beq_iff_eq] at hwf
    simp only [parsePattern.loop]
    rw [← hwf.1]
    cases hps : HasPrefix s "<".toList
    · simpa using ih hwf.2
    · exact ⟨true, by simp⟩

section Cased
variable [CaseTables]

/-- A well-formed pattern is accepted by `parsePattern`. -/
theorem parsePattern_of_wellFormed (pattern : Str) (hwf : wellFormed pattern = true) :
    ∃ hp, parsePattern pattern =
      .ok (hp, Split (ToLower (Trim pattern "/".toList)) '/') :=
  parsePattern_loop_wellFormed pattern _ _ hwf

/-- The effect of a `HandleFunc` call that returns. -/
theorem HandleFunc_ok (r r1 : Router) (method path : Str) (f : Option HandlerFunc)
    (h : r.HandleFunc method path f = .ok r1) :
    ∃ (hp : Bool) (p : List Str) (last : Str),
      parsePattern (r.fullPath path) = .ok (hp, p) ∧
      Router.HandleFunc.check method (r.fullPath path) p r.routes = .ok () ∧
      p.getLast? = some last ∧
      r1 = { r with routes := r.routes ++ [{
        method := ToUpper method
        pattern := r.fullPath path
        path := p
        handler := r.middleware.foldl (fun g mw => mw g) f
        wildcard := decide (last = "*".toList)
        params := hp }] } := by
  simp only [Router.HandleFunc] at h
  split at h
  · exact absurd h (by simp)
  · rename_i hp p hparse
    split at h
    · exact absurd h (by simp)
    · rename_i u hcheck
      split at h
      · exact absurd h (by simp)
      · rename_i last hlast
        simp only [Except.ok.injEq] at h
        exact ⟨hp, p, last, hparse, hcheck, hlast, h.symm⟩

/-- The invariants of a registered endpoint. -/
theorem Registered_inv (e : endpoint) (h : e.Registered) :
    e.path = Split (ToLower (Trim e.pattern "/".toList)) '/' ∧
    (e.params = true ↔ ∃ s ∈ e.path, HasPrefix s "<".toList = true) ∧
    (e.wildcard = true ↔ e.path.getLast? = some "*".toList) ∧
    parsePattern e.pattern = .ok (e.params, e.path) := by
  obtain ⟨r0, r1, method, path, f, hcall, hroutes⟩ := h
  obtain ⟨hp, p, last, hparse, -, hlast, hr1⟩ := HandleFunc_ok _ _ _ _ _ hcall
  subst hr1
  simp only at hroutes
  have he := List.append_cancel_left hroutes
  simp only [List.cons.injEq, and_true] at he
  subst he
  obtain ⟨h1, h2⟩ := parsePattern_ok _ _ _ hparse
  refine ⟨h1, h2, ?_, hparse⟩
  simp only [hlast, decide_eq_true_eq, Option.some.injEq]

/-! Lemmas on `endpoint.match` -/

end Cased

/-- Walking pattern segments over a request that carries the same segments at the
same positions keeps `hit`, provided the rest of the walk does. -/
theorem matchParts_same (tail : List Str) (A pre rest : List Str)
    (htail : endpoint.matchParts (pre ++ A ++ rest) (pre.length + A.length) tail = .ok true) :
    endpoint.matchParts (pre ++ A ++ rest) pre.length (A ++ tail) = .ok true := by
  induction A generalizing pre with
  | nil => simpa using htail
  | cons a A ih =>
    simp only [List.cons_append, endpoint.matchParts]
    split
    · rfl
    · have hget : (pre ++ a :: A ++ rest)[pre.length]? = some a := by
        rw [List.append_assoc, List.getElem?_append_right (Nat.le_refl _)]
        simp
      rw [hget]
      simp only [ne_eq, not_true_eq_false, false_and, if_false]
      have h := ih (pre ++ [a]) (by
        simpa [List.append_assoc, Nat.add_assoc, Nat.add_comm 1] using htail)
      simpa [List.append_assoc] using h

/-- The result of `endpoint.match` once the structural part has succeeded. -/
theorem match_of_structural (e : endpoint) (method : Str) (path : List Str)
    (hs : e.structural path) :
    e.match_ method path =
      if e.method ≠ "*".toList ∧ method ≠ e.method then .ok (none, true, false)
      else .ok (e.handler, false, e.params) := by
  obtain ⟨h1, h2⟩ := hs
  simp only [endpoint.match_, if_neg h1, h2]
  simp

/-- When `endpoint.match` yields a handler, it is the endpoint's own, the
not-allowed flag is off, the params flag is the endpoint's, and the segment count
was accepted. -/
theorem match_some (e : endpoint) (method : Str) (path : List Str) (h : HandlerFunc)
    (na hp : Bool) (hm : e.match_ method path = .ok (some h, na, hp)) :
    e.handler = some h ∧ na = false ∧ hp = e.params ∧
      ¬ (path.length ≠ e.path.length ∧ e.wildcard = false) := by
  simp only [endpoint.match_] at hm
  split at hm
  · simp at hm
  · rename_i hlen
    split at hm
    · simp at hm
    · split at hm
      · simp at hm
      · split at hm
        · simp at hm
        · simp only [Except.ok.injEq, Prod.mk.injEq] at hm
          exact ⟨hm.1, hm.2.1.symm, hm.2.2.symm, hlen⟩

/-! Lemmas on the scan of `ServeHTTP` -/

section Cased
variable [CaseTables]

/-- Endpoints that yield no handler are passed over by the scan. -/
theorem scan_skip (r : Request) (path : List Str) (pre : List endpoint) (e : endpoint)
    (post : List endpoint) (b : Bool)
    (hpre : ∀ v ∈ pre, ∃ na hp, v.match_ r.Method path = .ok (none, na, hp)) :
    ∃ b1, Router.ServeHTTP.scan r path (pre ++ e :: post) b =
      Router.ServeHTTP.scan r path (e :: post) b1 := by
  induction pre generalizing b with
  | nil => exact ⟨b, rfl⟩
  | cons v vs ih =>
    obtain ⟨na, hp, hv⟩ := hpre v (List.mem_cons_self _ _)
    obtain ⟨b1, hb1⟩ := ih na (fun w hw => hpre w (List.mem_cons_of_mem _ hw))
    refine ⟨b1, ?_⟩
    simp only [List.cons_append, Router.ServeHTTP.scan, hv]
    exact hb1

/-- First match wins: when the endpoints before `e` return without a handler and
`e` yields one, `ServeHTTP` calls that handler, with the request itself if the
endpoint has no parameters and with the parameter map attached otherwise. -/
theorem ServeHTTP_first {W : Type} [ResponseWriter W] (ro : Router) (pre post : List endpoint)
    (e : endpoint) (h : HandlerFunc) (na hp : Bool) (rw : W) (r : Request)
    (hroutes : ro.routes = pre ++ e :: post)
    (hpre : ∀ v ∈ pre, ∃ na hp,
      v.match_ r.Method (Split (ToLower (Trim r.Path "/".toList)) '/') = .ok (none, na, hp))
    (hmatch : e.match_ r.Method (Split (ToLower (Trim r.Path "/".toList)) '/') =
      .ok (some h, na, hp)) :
    ro.ServeHTTP rw r =
      if e.params then
        match urlParams e.pattern r.Path with
        | .error err => .error err
        | .ok params => h.call W rw { r with params := some params }
      else h.call W rw r := by
  obtain ⟨b1, hb1⟩ := scan_skip r _ pre e post false hpre
  obtain ⟨-, -, hhp, -⟩ := match_some _ _ _ _ _ _ hmatch
  subst hhp
  simp only [Router.ServeHTTP, hroutes, hb1, Router.ServeHTTP.scan, hmatch]
  cases e.params with
  | false => simp
  | true =>
    simp only [if_true]
    cases urlParams e.pattern r.Path <;> rfl

/-- When no endpoint yields a handler and none panics, `ServeHTTP` calls a
fallback. -/
theorem scan_none (r : Request) (path : List Str) (routes : List endpoint) (b : Bool)
    (hall : ∀ v ∈ routes, ∃ na hp, v.match_ r.Method path = .ok (none, na, hp)) :
    ∃ b1, Router.ServeHTTP.scan r path routes b = .ok (.inr b1) := by
  induction routes generalizing b with
  | nil => exact ⟨b, rfl⟩
  | cons v vs ih =>
    obtain ⟨na, hp, hv⟩ := hall v (List.mem_cons_self _ _)
    obtain ⟨b1, hb1⟩ := ih na (fun w hw => hall w (List.mem_cons_of_mem _ hw))
    exact ⟨b1, by simp only [Router.ServeHTTP.scan, hv]; exact hb1⟩

/-! Lemmas on parameter maps and `urlParams` -/

end Cased

theorem lookup_filter_ne (m : ParamMap) (k k1 : Str) (h : k1 ≠ k) :
    (m.filter (fun kv => decide (kv.1 ≠ k))).lookup k1 = m.lookup k1 := by
  induction m with
  | nil => rfl
  | cons kv m ih =>
    obtain ⟨a, b⟩ := kv
    by_cases ha : a = k
    · subst ha
      have hne : (k1 == a) = false := by simpa using h
      simp only [ne_eq, decide_not] at ih
      simp [List.filter_cons, List.lookup_cons, hne, ih]
    · by_cases hk : k1 = a
      · subst hk
        simp [List.filter_cons, List.lookup_cons, ha]
      · have hne : (k1 == a) = false := by simpa using hk
        simp only [ne_eq, decide_not] at ih
        simp [List.filter_cons, List.lookup_cons, ha, hne, ih]

theorem lookup_set_self (m : ParamMap) (k v : Str) : (m.set k v).lookup k = some v := by
  simp [ParamMap.set, List.lookup_cons]

theorem lookup_set_ne (m : ParamMap) (k v k1 : Str) (h : k1 ≠ k) :
    (m.set k v).lookup k1 = m.lookup k1 := by
  have hne : (k1 == k) = false := by simpa using h
  simp only [ParamMap.set, List.lookup_cons, hne]
  exact lookup_filter_ne m k k1 h

theorem keys_set (m : ParamMap) (k v k1 : Str) :
    k1 ∈ (m.set k v).map Prod.fst ↔ k1 = k ∨ k1 ∈ m.map Prod.fst := by
  simp only [ParamMap.set, List.map_cons, List.mem_cons, List.mem_map, List.mem_filter,
    decide_eq_true_eq, Prod.exists, exists_and_right, exists_eq_right]
  constructor
  · rintro (h | ⟨⟨b, hb⟩, -⟩)
    · exact Or.inl h
    · exact Or.inr ⟨b, hb⟩
  · rintro (h | ⟨b, hb⟩)
    · exact Or.inl h
    · by_cases hk : k1 = k
      · exact Or.inl hk
      · exact Or.inr ⟨⟨b, hb⟩, hk⟩

/-- The loop of `urlParams` returns when the request has a segment for every
pattern segment still to visit; the keys it adds are the names of the parameter
segments, keys that are no such name keep their value, and a name that no later
parameter segment repeats is bound to the request segment at its position. -/
theorem urlParams_loop_ok (Q : List Str) (ps : List Str) (i : Nat) (m : ParamMap)
    (hlen : i + ps.length ≤ Q.length) :
    ∃ m1, urlParams.loop Q i ps m = .ok m1 ∧
      (∀ k, k ∈ m1.map Prod.fst ↔
        (k ∈ m.map Prod.fst ∨
          ∃ s ∈ ps, HasPrefix s "<".toList = true ∧ k = Trim s "<>".toList)) ∧
      (∀ k, (∀ s ∈ ps, HasPrefix s "<".toList = true → Trim s "<>".toList ≠ k) →
        m1.lookup k = m.lookup k) ∧
      (∀ j s, ps[j]? = some s → HasPrefix s "<".toList = true →
        (∀ j1 s1, j < j1 → ps[j1]? = some s1 → HasPrefix s1 "<".toList = true →
          Trim s1 "<>".toList ≠ Trim s "<>".toList) →
        m1.lookup (Trim s "<>".toList) = Q[i + j]?) := by
  induction ps generalizing i m with
  | nil =>
    refine ⟨m, rfl, ?_, ?_, ?_⟩
    · intro k; simp
    · intro k _; rfl
    · intro j s hj; simp at hj
  | cons p ps ih =>
    simp only [List.length_cons] at hlen
    by_cases hp : HasPrefix p "<".toList = true
    · have hi : i < Q.length := by omega
      obtain ⟨m1, hloop, hkeys, hframe, hvals⟩ :=
        ih (i + 1) (m.set (Trim p "<>".toList) Q[i]) (by omega)
      refine ⟨m1, ?_, ?_, ?_, ?_⟩
      · simp only [urlParams.loop, hp, if_true, List.getElem?_eq_getElem hi]
        exact hloop
      · intro k
        rw [hkeys k, keys_set]
        simp only [List.mem_cons, exists_eq_or_imp]
        constructor
        · rintro ((h | h) | h)
          · exact Or.inr (Or.inl ⟨hp, h⟩)
          · exact Or.inl h
          · exact Or.inr (Or.inr h)
        · rintro (h | ⟨-, h⟩ | h)
          · exact Or.inl (Or.inr h)
          · exact Or.inl (Or.inl h)
          · exact Or.inr h
      · intro k hk
        rw [hframe k (fun s hs => hk s (List.mem_cons_of_mem _ hs))]
        exact lookup_set_ne _ _ _ _ (fun h => hk p (List.mem_cons_self _ _) hp h.symm)
      · intro j s hj hs hlater
        cases j with
        | zero =>
          simp only [List.getElem?_cons_zero, Option.some.injEq] at hj
          subst hj
          rw [hframe _ (fun s1 hs1 hp1 => by
            obtain ⟨n, hn⟩ := List.getElem?_of_mem hs1
            exact hlater (n + 1) s1 (Nat.succ_pos n) (by simpa using hn) hp1)]
          rw [lookup_set_self]
          simp [List.getElem?_eq_getElem hi]
        | succ j =>
          simp only [List.getElem?_cons_succ] at hj
          have := hvals j s hj hs (fun j1 s1 hlt hj1 hp1 =>
            hlater (j1 + 1) s1 (by omega) (by simpa using hj1) hp1)
          rw [this]
          congr 1
          omega
    · obtain ⟨m1, hloop, hkeys, hframe, hvals⟩ := ih (i + 1) m (by omega)
      refine ⟨m1, ?_, ?_, ?_, ?_⟩
      · simp only [urlParams.loop, hp]
        exact hloop
      · intro k
        rw [hkeys k]
        simp only [List.mem_cons, exists_eq_or_imp]
        constructor
        · rintro (h | h)
          · exact Or.inl h
          · exact Or.inr (Or.inr h)
        · rintro (h | ⟨h, -⟩ | h)
          · exact Or.inl h
          · exact absurd h hp
          · exact Or.inr h
      · intro k hk
        exact hframe k (fun s hs => hk s (List.mem_cons_of_mem _ hs))
      · intro j s hj hs hlater
        cases j with
        | zero =>
          simp only [List.getElem?_cons_zero, Option.some.injEq] at hj
          subst hj
          exact absurd hs hp
        | succ j =>
          simp only [List.getElem?_cons_succ] at hj
          have := hvals j s hj hs (fun j1 s1 hlt hj1 hp1 =>
            hlater (j1 + 1) s1 (by omega) (by simpa using hj1) hp1)
          rw [this]
          congr 1
          omega

/-! Dispatch with parameters -/

/-- When the loop of `urlParams` returns, every parameter segment found a request
segment at its position; keys that are no parameter name of the visited segments
keep their value, and a name that no later parameter segment repeats is bound to
the request segment at its position. -/
theorem urlParams_loop_of_ok (Q : List Str) (ps : List Str) (i : Nat) (m m1 : ParamMap)
    (h : urlParams.loop Q i ps m = .ok m1) :
    (∀ k, (∀ s ∈ ps, HasPrefix s "<".toList = true → Trim s "<>".toList ≠ k) →
      m1.lookup k = m.lookup k) ∧
    (∀ j s, ps[j]? = some s → HasPrefix s "<".toList = true →
      (∀ j1 s1, j < j1 → ps[j1]? = some s1 → HasPrefix s1 "<".toList = true →
        Trim s1 "<>".toList ≠ Trim s "<>".toList) →
      ∃ v, Q[i + j]? = some v ∧ m1.lookup (Trim s "<>".toList) = some v) := by
  induction ps generalizing i m with
  | nil =>
    simp only [urlParams.loop, Except.ok.injEq] at h
    subst h
    refine ⟨fun k _ => rfl, ?_⟩
    intro j s hj
    simp at hj
  | cons p ps ih =>
    by_cases hp : HasPrefix p "<".toList = true
    · simp only [urlParams.loop, hp, if_true] at h
      cases hq : Q[i]? with
      | none =>
        rw [hq] at h
        exact absurd h (by simp)
      | some v =>
        rw [hq] at h
        obtain ⟨hframe, hvals⟩ := ih (i + 1) (m.set (Trim p "<>".toList) v) h
        refine ⟨?_, ?_⟩
        · intro k hk
          rw [hframe k (fun s hs => hk s (List.mem_cons_of_mem _ hs))]
          exact lookup_set_ne _ _ _ _ (fun hkp => hk p (List.mem_cons_self _ _) hp hkp.symm)
        · intro j s hj hs hlater
          cases j with
          | zero =>
            simp only [List.getElem?_cons_zero, Option.some.injEq] at hj
            subst hj
            refine ⟨v, by simpa using hq, ?_⟩
            rw [hframe _ (fun s1 hs1 hp1 => by
              obtain ⟨n, hn⟩ := List.getElem?_of_mem hs1
              exact hlater (n + 1) s1 (Nat.succ_pos n) (by simpa using hn) hp1)]
            exact lookup_set_self _ _ _
          | succ j =>
            simp only [List.getElem?_cons_succ] at hj
            obtain ⟨w, hw, hl⟩ := hvals j s hj hs (fun j1 s1 hlt hj1 hp1 =>
              hlater (j1 + 1) s1 (by omega) (by simpa using hj1) hp1)
            refine ⟨w, ?_, hl⟩
            rw [← hw]
            congr 1
            omega
    · simp only [urlParams.loop, hp] at h
      obtain ⟨hframe, hvals⟩ := ih (i + 1) m h
      refine ⟨fun k hk => hframe k (fun s hs => hk s (List.mem_cons_of_mem _ hs)), ?_⟩
      intro j s hj hs hlater
      cases j with
      | zero =>
        simp only [List.getElem?_cons_zero, Option.some.injEq] at hj
        subst hj
        exact absurd hs hp
      | succ j =>
        simp only [List.getElem?_cons_succ] at hj
        obtain ⟨w, hw, hl⟩ := hvals j s hj hs (fun j1 s1 hlt hj1 hp1 =>
          hlater (j1 + 1) s1 (by omega) (by simpa using hj1) hp1)
        refine ⟨w, ?_, hl⟩
        rw [← hw]
        congr 1
        omega

section Cased
variable [CaseTables]

theorem normalised_eq_map (r : Request) : r.normalised = r.segments.map ToLower := by
  simp only [Request.normalised, Request.segments]
  rw [Split_ToLower]

theorem Registered_path_eq_map (e : endpoint) (h : e.Registered) :
    e.path = e.written.map ToLower := by
  rw [(Registered_inv e h).1]
  simp only [endpoint.written]
  rw [Split_ToLower]

/-- Dispatch to a registered endpoint none of whose segments is `*`: the request
has as many segments as the pattern, so `urlParams` returns, and the handler gets
the map that the loop of `urlParams` builds from the stored segments. -/
theorem ServeHTTP_params {W : Type} [ResponseWriter W] (ro : Router) (pre post : List endpoint)
    (e : endpoint) (h : HandlerFunc) (na hp : Bool) (rw : W) (r : Request)
    (hroutes : ro.routes = pre ++ e :: post) (hreg : e.Registered)
    (hstar : "*".toList ∉ e.path)
    (hpre : ∀ v ∈ pre, ∃ na hp, v.match_ r.Method r.normalised = .ok (none, na, hp))
    (hmatch : e.match_ r.Method r.normalised = .ok (some h, na, hp)) :
    r.segments.length = e.path.length ∧
    (e.params = false → ro.ServeHTTP rw r = h.call W rw r) ∧
    (e.params = true → ∃ m, urlParams.loop r.segments 0 e.path [] = .ok m ∧
      ro.ServeHTTP rw r = h.call W rw { r with params := some m }) := by
  obtain ⟨hpath, -, hwild, -⟩ := Registered_inv e hreg
  have hw : e.wildcard = false := by
    cases hwc : e.wildcard with
    | false => rfl
    | true =>
      exact absurd (List.mem_of_getLast?_eq_some (hwild.1 hwc)) hstar
  obtain ⟨-, -, -, hlen⟩ := match_some _ _ _ _ _ _ hmatch
  have hlen1 : r.normalised.length = e.path.length := by
    by_contra hne
    exact hlen ⟨hne, hw⟩
  have hlen2 : r.segments.length = e.path.length := by
    rw [← hlen1, normalised_eq_map, List.length_map]
  have hserve := ServeHTTP_first ro pre post e h na hp rw r hroutes hpre hmatch
  refine ⟨hlen2, ?_, ?_⟩
  · intro hpf
    rw [hserve, hpf]
    rfl
  · intro hpt
    obtain ⟨m, hm, -⟩ := urlParams_loop_ok r.segments e.path 0 [] (by omega)
    refine ⟨m, hm, ?_⟩
    have hurl : urlParams e.pattern r.Path = .ok m := by
      simp only [urlParams]
      rw [← hpath]
      exact hm
    rw [hserve, hpt, hurl]
    rfl

end Cased

theorem nodup_filter_map_index {α β : Type} (p : α → Bool) (f : α → β) (l : List α)
    (hnd : ((l.filter p).map f).Nodup) (i j : Nat) (a b : α)
    (hi : l[i]? = some a) (hj : l[j]? = some b) (ha : p a = true) (hb : p b = true)
    (hab : f a = f b) : i = j := by
  induction l generalizing i j with
  | nil => simp at hi
  | cons x xs ih =>
    have htail : ((xs.filter p).map f).Nodup := by
      by_cases hx : p x = true
      · rw [List.filter_cons_of_pos hx, List.map_cons] at hnd
        exact (List.nodup_cons.1 hnd).2
      · rw [List.filter_cons_of_neg hx] at hnd
        exact hnd
    have hhead : ∀ (n : Nat) (c : α), xs[n]? = some c → p c = true → p x = true → f x ≠ f c := by
      intro n c hn hc hx hxc
      rw [List.filter_cons_of_pos hx, List.map_cons] at hnd
      apply (List.nodup_cons.1 hnd).1
      rw [hxc]
      exact List.mem_map_of_mem f (List.mem_filter.2 ⟨List.getElem?_mem hn, hc⟩)
    cases i with
    | zero =>
      cases j with
      | zero => rfl
      | succ j =>
        simp only [List.getElem?_cons_zero, Option.some.injEq] at hi
        simp only [List.getElem?_cons_succ] at hj
        subst hi
        exact absurd hab (hhead j b hj hb ha)
    | succ i =>
      cases j with
      | zero =>
        simp only [List.getElem?_cons_zero, Option.some.injEq] at hj
        simp only [List.getElem?_cons_succ] at hi
        subst hj
        exact absurd hab.symm (hhead i a hi ha hb)
      | succ j =>
        simp only [List.getElem?_cons_succ] at hi hj
        rw [ih htail i j hi hj]

/-! Lemmas on registration -/

section Cased
variable [CaseTables]

/-- A `HandleFunc` call returns when the pattern parses and the duplicate check
passes. -/
theorem HandleFunc_of (r : Router) (method path : Str) (f : Option HandlerFunc) (hp : Bool)
    (p : List Str) (last : Str) (hparse : parsePattern (r.fullPath path) = .ok (hp, p))
    (hcheck : Router.HandleFunc.check method (r.fullPath path) p r.routes = .ok ())
    (hlast : p.getLast? = some last) :
    r.HandleFunc method path f = .ok { r with routes := r.routes ++ [{
      method := ToUpper method
      pattern := r.fullPath path
      path := p
      handler := r.middleware.foldl (fun g mw => mw g) f
      wildcard := decide (last = "*".toList)
      params := hp }] } := by
  simp only [Router.HandleFunc, hparse, hcheck, hlast]

end Cased

theorem New_fullPath_trim (pattern : Str) :
    Trim (New.fullPath pattern) "/".toList = Trim pattern "/".toList := by
  have h : New.fullPath pattern =
      if HasPrefix pattern "/".toList = false then '/' :: pattern else pattern := rfl
  rw [h]
  split
  · exact Trim_cons_slash pattern
  · rfl

theorem matchParts_self (p : List Str) : endpoint.matchParts p 0 p = .ok true := by
  have := matchParts_same [] p [] [] (by simp [endpoint.matchParts])
  simpa using this

/-! The claims -/

section Cased
variable [CaseTables]

/-- C4 (amended): for every well-formed pattern and every two method strings `m1`
and `m2` that differ after upper-casing, the upper-cased `m1` not being `*`,
registering the pattern under `m1` and then under `m2` on a fresh router succeeds
both times, and the table holds the two endpoints, in that order, with their
handlers. -/
theorem C4_second_method_registers (pattern m1 m2 : Str) (f1 f2 : Option HandlerFunc)
    (hwf : wellFormed pattern = true) (hstar : ToUpper m1 ≠ "*".toList)
    (hdiff : ToUpper m2 ≠ ToUpper m1) :
    ∃ r1 r2 : Router,
      New.HandleFunc m1 pattern f1 = .ok r1 ∧ r1.HandleFunc m2 pattern f2 = .ok r2 ∧
      r2.routes.map endpoint.key =
        [(ToUpper m1, Split (ToLower (Trim pattern "/".toList)) '/'),
         (ToUpper m2, Split (ToLower (Trim pattern "/".toList)) '/')] ∧
      r2.routes.map (fun e => e.handler) = [f1, f2] := by
  have hne : m2 ≠ ToUpper m1 := by
    intro h
    apply hdiff
    rw [h, ToUpper_ToUpper]
  have hwf1 : wellFormed (New.fullPath pattern) = true := by
    simp only [wellFormed, New_fullPath_trim]
    exact hwf
  obtain ⟨hp, hparse⟩ := parsePattern_of_wellFormed _ hwf1
  rw [New_fullPath_trim] at hparse
  obtain ⟨last, hlast⟩ : ∃ last, (Split (ToLower (Trim pattern "/".toList)) '/').getLast? =
      some last := by
    cases hsp : Split (ToLower (Trim pattern "/".toList)) '/' with
    | nil => exact absurd hsp (Split_ne_nil _ _)
    | cons x xs => exact ⟨_, List.getLast?_eq_getLast _ (by simp)⟩
  have h1 := HandleFunc_of New m1 pattern f1 hp _ last hparse rfl hlast
  have h2 := HandleFunc_of
    { New with routes := New.routes ++ [{
      method := ToUpper m1
      pattern := New.fullPath pattern
      path := Split (ToLower (Trim pattern "/".toList)) '/'
      handler := New.middleware.foldl (fun g mw => mw g) f1
      wildcard := decide (last = "*".toList)
      params := hp }] } m2 pattern f2 hp _ last hparse (by
        simp only [New, List.nil_append, Router.HandleFunc.check, endpoint.match_,
          matchParts_self]
        have hs : ¬ ToUpper m1 = ['*'] := hstar
        simp [hs, hne]) hlast
  exact ⟨_, _, h1, h2, by simp [endpoint.key, New], by simp [New]⟩

/-- C6: a registered pattern without a `*` segment whose parameter segments carry
distinct lower-case names, and a request that dispatch routes to its endpoint
(the endpoints before it yield no handler, this one yields `h`).  If the pattern
has no parameter segment, `h` is called with the request as it came.  Otherwise
`h` is called with a parameter map whose keys are exactly the parameter names of
the pattern, and each name is bound to the segment of the request path at the
same position, taken from the path in its original letter case. -/
theorem C6_param_map_exact {W : Type} [ResponseWriter W] (ro : Router)
    (pre post : List endpoint) (e : endpoint) (h : HandlerFunc) (na hp : Bool) (rw : W)
    (r : Request)
    (hroutes : ro.routes = pre ++ e :: post) (hreg : e.Registered)
    (hstar : "*".toList ∉ e.written)
    (hlow : ∀ seg ∈ e.written, HasPrefix seg "<".toList = true → ToLower seg = seg)
    (hdistinct : ((e.written.filter (fun s => HasPrefix s "<".toList)).map
      (fun s => Trim s "<>".toList)).Nodup)
    (hpre : ∀ v ∈ pre, ∃ na hp, v.match_ r.Method r.normalised = .ok (none, na, hp))
    (hmatch : e.match_ r.Method r.normalised = .ok (some h, na, hp)) :
    ((∀ seg ∈ e.written, HasPrefix seg "<".toList = false) →
      ro.ServeHTTP rw r = h.call W rw r) ∧
    ((∃ seg ∈ e.written, HasPrefix seg "<".toList = true) →
      ∃ m : ParamMap, ro.ServeHTTP rw r = h.call W rw { r with params := some m } ∧
        (∀ k, k ∈ m.map Prod.fst ↔
          ∃ seg ∈ e.written, HasPrefix seg "<".toList = true ∧ k = Trim seg "<>".toList) ∧
        (∀ (i : Nat) (seg : Str), e.written[i]? = some seg → HasPrefix seg "<".toList = true →
          ∃ v, r.segments[i]? = some v ∧ m.lookup (Trim seg "<>".toList) = some v)) := by
  have hpath := Registered_path_eq_map e hreg
  obtain ⟨-, hparams, -, -⟩ := Registered_inv e hreg
  have hstar1 : "*".toList ∉ e.path := by
    rw [hpath]
    intro hmem
    obtain ⟨s, hs, hsl⟩ := List.mem_map.1 hmem
    rw [(ToLower_eq_star s).1 hsl] at hs
    exact hstar hs
  obtain ⟨hlen, hfalse, htrue⟩ :=
    ServeHTTP_params ro pre post e h na hp rw r hroutes hreg hstar1 hpre hmatch
  -- parameter segments are the same in the stored and the written pattern
  have hsame : ∀ (i : Nat) (s : Str), e.path[i]? = some s → HasPrefix s "<".toList = true →
      e.written[i]? = some s := by
    intro i s hi hs
    rw [hpath, List.getElem?_map] at hi
    cases hw : e.written[i]? with
    | none => rw [hw] at hi; simp at hi
    | some w =>
      rw [hw] at hi
      simp only [Option.map_some', Option.some.injEq] at hi
      subst hi
      rw [HasPrefix_lt_ToLower] at hs
      rw [hlow w (List.getElem?_mem hw) hs]
  have hsame1 : ∀ (i : Nat) (s : Str), e.written[i]? = some s → HasPrefix s "<".toList = true →
      e.path[i]? = some s := by
    intro i s hi hs
    rw [hpath, List.getElem?_map, hi]
    simp only [Option.map_some', Option.some.injEq]
    exact hlow s (List.getElem?_mem hi) hs
  constructor
  · intro hnone
    apply hfalse
    cases hpf : e.params with
    | false => rfl
    | true =>
      obtain ⟨s, hs, hsp⟩ := hparams.1 hpf
      obtain ⟨i, hi⟩ := List.getElem?_of_mem hs
      have := hnone s (List.getElem?_mem (hsame i s hi hsp))
      rw [this] at hsp
      exact absurd hsp (by simp)
  · rintro ⟨seg0, hseg0, hp0⟩
    have hpt : e.params = true := by
      obtain ⟨i, hi⟩ := List.getElem?_of_mem hseg0
      exact hparams.2 ⟨seg0, List.getElem?_mem (hsame1 i seg0 hi hp0), hp0⟩
    obtain ⟨m, hm, hserve⟩ := htrue hpt
    obtain ⟨m1, hm1, hkeys, -, hvals⟩ := urlParams_loop_ok r.segments e.path 0 [] (by omega)
    rw [hm] at hm1
    simp only [Except.ok.injEq] at hm1
    subst hm1
    refine ⟨m, hserve, ?_, ?_⟩
    · intro k
      rw [hkeys k]
      simp only [List.map_nil, List.not_mem_nil, false_or]
      constructor
      · rintro ⟨s, hs, hsp, hk⟩
        obtain ⟨i, hi⟩ := List.getElem?_of_mem hs
        exact ⟨s, List.getElem?_mem (hsame i s hi hsp), hsp, hk⟩
      · rintro ⟨s, hs, hsp, hk⟩
        obtain ⟨i, hi⟩ := List.getElem?_of_mem hs
        exact ⟨s, List.getElem?_mem (hsame1 i s hi hsp), hsp, hk⟩
    · intro i seg hi hsp
      have hip := hsame1 i seg hi hsp
      have hilt : i < r.segments.length := by
        rw [hlen]
        exact (List.getElem?_eq_some.1 hip).1
      refine ⟨r.segments[i], List.getElem?_eq_getElem hilt, ?_⟩
      rw [hvals i seg hip hsp]
      · simp [List.getElem?_eq_getElem hilt]
      · intro j1 s1 hlt hj1 hp1 heq
        have := nodup_filter_map_index (fun s => HasPrefix s "<".toList)
          (fun s => Trim s "<>".toList) e.written hdistinct i j1 seg s1 hi
          (hsame j1 s1 hj1 hp1) hsp hp1 heq.symm
        omega

/-- C7 (amended): a registered pattern with a parameter segment at position `i`
whose lower-cased name no later parameter segment repeats, and a request routed
to the endpoint: the endpoints before it yield no handler, this one yields `h`,
and `urlParams` returns the map `m`.  The handler is called with `m` attached, and
inside it `Param` asked for the lower-cased name returns the segment of the
request path at position `i`, in its original letter case.  The pattern may hold
a `*` segment. -/
theorem C7_param_by_lower_cased_name {W : Type} [ResponseWriter W] (ro : Router)
    (pre post : List endpoint) (e : endpoint) (h : HandlerFunc) (na hp : Bool) (rw : W)
    (r : Request) (i : Nat) (seg : Str) (m : ParamMap)
    (hroutes : ro.routes = pre ++ e :: post) (hreg : e.Registered)
    (hseg : e.written[i]? = some seg) (hparam : HasPrefix seg "<".toList = true)
    (hlater : ∀ s ∈ e.written.drop (i + 1), HasPrefix s "<".toList = true →
      ToLower (Trim s "<>".toList) ≠ ToLower (Trim seg "<>".toList))
    (hpre : ∀ v ∈ pre, ∃ na hp, v.match_ r.Method r.normalised = .ok (none, na, hp))
    (hmatch : e.match_ r.Method r.normalised = .ok (some h, na, hp))
    (hurl : urlParams e.pattern r.Path = .ok m) :
    ∃ v : Str, ro.ServeHTTP rw r = h.call W rw { r with params := some m } ∧
      r.segments[i]? = some v ∧
      Param { r with params := some m } (ToLower (Trim seg "<>".toList)) = v := by
  have hpath := Registered_path_eq_map e hreg
  obtain ⟨hpath0, hparams, -, -⟩ := Registered_inv e hreg
  have hip : e.path[i]? = some (ToLower seg) := by
    rw [hpath, List.getElem?_map, hseg]
    rfl
  have hpl : HasPrefix (ToLower seg) "<".toList = true := by
    rw [HasPrefix_lt_ToLower]
    exact hparam
  have hpt : e.params = true := hparams.2 ⟨_, List.getElem?_mem hip, hpl⟩
  have hserve := ServeHTTP_first ro pre post e h na hp rw r hroutes hpre hmatch
  rw [hpt, if_pos rfl, hurl] at hserve
  have hloop : urlParams.loop r.segments 0 e.path [] = .ok m := by
    have := hurl
    simp only [urlParams] at this
    rw [← hpath0] at this
    exact this
  obtain ⟨-, hvals⟩ := urlParams_loop_of_ok r.segments e.path 0 [] m hloop
  obtain ⟨v, hv, hlook⟩ := hvals i (ToLower seg) hip hpl (by
    intro j1 s1 hlt hj1 hp1
    rw [hpath, List.getElem?_map] at hj1
    cases hw : e.written[j1]? with
    | none => rw [hw] at hj1; simp at hj1
    | some w =>
      rw [hw] at hj1
      simp only [Option.map_some', Option.some.injEq] at hj1
      subst hj1
      rw [Trim_ToLower_angle, Trim_ToLower_angle]
      apply hlater w
      · have hd : (e.written.drop (i + 1))[j1 - (i + 1)]? = some w := by
          rw [List.getElem?_drop]
          rw [show i + 1 + (j1 - (i + 1)) = j1 by omega]
          exact hw
        exact List.getElem?_mem hd
      · rw [← HasPrefix_lt_ToLower]
        exact hp1)
  rw [Trim_ToLower_angle] at hlook
  refine ⟨v, hserve, by simpa using hv, ?_⟩
  simp only [Param, ParamMap.get, hlook]

/-- C9: an endpoint registered for a pattern of literal segments followed by a
final `*`, and a request path that starts with those segments and goes on with
any number of further segments, none included.  The match is structural, and
with an accepted method `match` returns the endpoint's handler, the not-allowed
flag off and the params flag off. -/
theorem C9_wildcard_suffix_matches (e : endpoint) (lits rest : List Str) (method : Str)
    (hreg : e.Registered) (hpath : e.path = lits ++ ["*".toList])
    (hlit : ∀ s ∈ lits, HasPrefix s "<".toList = false)
    (hm : e.method = "*".toList ∨ method = e.method) :
    e.structural (lits ++ rest) ∧
      e.match_ method (lits ++ rest) = .ok (e.handler, false, false) := by
  obtain ⟨-, hparams, hwild, -⟩ := Registered_inv e hreg
  have hw : e.wildcard = true := by
    rw [hwild, hpath]
    simp
  have hpf : e.params = false := by
    cases hpt : e.params with
    | false => rfl
    | true =>
      obtain ⟨s, hs, hsp⟩ := hparams.1 hpt
      rw [hpath] at hs
      rcases List.mem_append.1 hs with hs | hs
      · rw [hlit s hs] at hsp
        exact absurd hsp (by simp)
      · simp only [List.mem_singleton] at hs
        subst hs
        exact absurd hsp (by decide)
  have hstruct : e.structural (lits ++ rest) := by
    refine ⟨fun hc => ?_, ?_⟩
    · rw [hw] at hc
      exact absurd hc.2 (by simp)
    · rw [hpath]
      have := matchParts_same ["*".toList] lits [] rest (by simp [endpoint.matchParts])
      simpa using this
  refine ⟨hstruct, ?_⟩
  rw [match_of_structural e method _ hstruct, hpf]
  rcases hm with hm | hm
  · simp [hm]
  · simp [hm]

end Cased

/-- C10: when the request path structurally matches the endpoint, `match` returns
the endpoint's handler with its params flag exactly when the stored method is `*`
or equals the request method as a string; otherwise it returns no handler and the
not-allowed flag.  An endpoint stored with `*` yields its handler for every
request method. -/
theorem C10_method_gate (e : endpoint) (method : Str) (path : List Str)
    (hs : e.structural path) :
    (e.match_ method path = .ok (e.handler, false, e.params) ↔
      (e.method = "*".toList ∨ method = e.method)) ∧
    (¬ (e.method = "*".toList ∨ method = e.method) →
      e.match_ method path = .ok (none, true, false)) ∧
    (e.method = "*".toList →
      ∀ m : Str, e.match_ m path = .ok (e.handler, false, e.params)) := by
  refine ⟨?_, ?_, ?_⟩
  · rw [match_of_structural e method path hs]
    by_cases hacc : e.method = "*".toList ∨ method = e.method
    · have : ¬ (e.method ≠ "*".toList ∧ method ≠ e.method) := by
        rintro ⟨h1, h2⟩
        exact hacc.elim h1 h2
      simp only [if_neg this, true_iff]
      exact hacc
    · have : e.method ≠ "*".toList ∧ method ≠ e.method :=
        ⟨fun h => hacc (Or.inl h), fun h => hacc (Or.inr h)⟩
      rw [if_pos this]
      constructor
      · intro heq
        simp only [Except.ok.injEq, Prod.mk.injEq] at heq
        exact absurd heq.2.1 (by simp)
      · intro h
        exact absurd h hacc
  · intro hacc
    rw [match_of_structural e method path hs]
    have : e.method ≠ "*".toList ∧ method ≠ e.method :=
      ⟨fun h => hacc (Or.inl h), fun h => hacc (Or.inr h)⟩
    rw [if_pos this]
  · intro hstar m
    rw [match_of_structural e m path hs]
    have : ¬ (e.method ≠ "*".toList ∧ m ≠ e.method) := fun h => h.1 hstar
    rw [if_neg this]

/-! Evaluations at concrete inputs -/

/-- C1 (defect): with `GET /a` registered before `GET /b`, the request `POST /a`
gets a method mismatch from the first endpoint and no handler from either, but
the scan overwrites the flag at the second endpoint: `ServeHTTP` answers 404
through `NotFound`, while the `MethodNotAllowed` fallback answers 405. -/
theorem C1_method_mismatch_overwritten :
    ∃ ro : Router,
      New.handleAll [("GET".toList, "/a".toList, some (statusHandler 200)),
        ("GET".toList, "/b".toList, some (statusHandler 200))] = .ok ro ∧
      ro.routes.map (fun e => e.outcome "POST".toList ["a".toList]) =
        [.ok (false, true, false), .ok (false, false, false)] ∧
      ro.ServeHTTP NewRecorder (NewRequest "POST" "/a") =
        HandlerFunc.ServeHTTP ro.NotFound NewRecorder (NewRequest "POST" "/a") ∧
      (ro.ServeHTTP NewRecorder (NewRequest "POST" "/a")).toOption.map (fun w => w.Code) = some 404 ∧
      (HandlerFunc.ServeHTTP ro.MethodNotAllowed NewRecorder
        (NewRequest "POST" "/a")).toOption.map (fun w => w.Code) = some 405 :=
  ⟨_, rfl, rfl, rfl, rfl, rfl⟩

/-- C2 (defect): with `GET /a/b/*` registered before `GET /<p>`, the request
`GET /a` is one for which the second endpoint yields its handler, yet `ServeHTTP`
invokes nothing: matching the first endpoint reads `path[1]` of a one-segment
path and panics. -/
theorem C2_first_match_lost_to_fault :
    ∃ ro : Router,
      New.handleAll [("GET".toList, "/a/b/*".toList, some (statusHandler 201)),
        ("GET".toList, "/<p>".toList, some (statusHandler 202))] = .ok ro ∧
      ro.routes.map (fun e => e.outcome "GET".toList ["a".toList]) =
        [.error indexOutOfRange, .ok (true, false, true)] ∧
      ro.ServeHTTP NewRecorder (NewRequest "GET" "/a") = .error indexOutOfRange :=
  ⟨_, rfl, rfl, rfl⟩

/-- C3 (defect): registering `/test` twice under the method string `get` succeeds
both times, because the duplicate check compares the method as given with the
stored upper-cased one; the table then holds two endpoints with the same stored
method and the same segment sequence. -/
theorem C3_duplicate_key_registered :
    ∃ ro : Router,
      New.handleAll [("get".toList, "/test".toList, some (statusHandler 200)),
        ("get".toList, "/test".toList, some (statusHandler 200))] = .ok ro ∧
      ro.routes.map endpoint.key =
        [("GET".toList, ["test".toList]), ("GET".toList, ["test".toList])] :=
  ⟨_, rfl, rfl⟩

/-- C4 (counterexample): after `*` has been registered for `/a`, registering
`GET` for the same pattern panics as a duplicate, although the two method strings
differ. -/
theorem C4_any_method_blocks_second :
    "*".toList ≠ "GET".toList ∧ wellFormed "/a".toList = true ∧
    New.handleAll [("*".toList, "/a".toList, some (statusHandler 200)),
      ("GET".toList, "/a".toList, some (statusHandler 200))] =
      .error "duplicate route and method: /a, GET".toList :=
  ⟨by decide, rfl, rfl⟩

/-- C5 (defect): `parsePattern` returns at the first segment that carries a
delimiter, so the malformed segment `<b` behind the well-formed `<a>` is never
inspected: no panic, and `HandleFunc` adds the endpoint. -/
theorem C5_malformed_segment_accepted :
    HasPrefix "<b".toList "<".toList = true ∧ HasSuffix "<b".toList ">".toList = false ∧
    parsePattern "/<a>/<b".toList = .ok (true, ["<a>".toList, "<b".toList]) ∧
    ∃ ro : Router,
      New.HandleFunc "GET".toList "/<a>/<b".toList (some (statusHandler 200)) = .ok ro ∧
      ro.routes.map endpoint.key = [("GET".toList, ["<a>".toList, "<b".toList])] :=
  ⟨rfl, rfl, rfl, _, rfl, rfl⟩

/-- C7 (counterexample): for the pattern `/api/<Name>` and the request `/api/x`,
a handler that writes `Param(r, "Name")` writes nothing, while the same handler
asking for `name` writes `x`: the key is the lower-cased name.  For the pattern
`/api/<v>/<v>` of the router tests and the request `/api/x/y` the handler reads
`y` under `v`: a repeated name is bound to its last position. -/
theorem C7_upper_case_name_absent :
    (∃ ro : Router,
      New.HandleFunc "GET".toList "/api/<Name>".toList (some (paramHandler "Name".toList)) = .ok ro ∧
      (ro.ServeHTTP NewRecorder (NewRequest "GET" "/api/x")).toOption.map (fun w => w.Body) =
        some []) ∧
    (∃ ro : Router,
      New.HandleFunc "GET".toList "/api/<Name>".toList (some (paramHandler "name".toList)) = .ok ro ∧
      (ro.ServeHTTP NewRecorder (NewRequest "GET" "/api/x")).toOption.map (fun w => w.Body) =
        some "x".toList) ∧
    (∃ ro : Router,
      New.HandleFunc "GET".toList "/api/<v>/<v>".toList (some (paramHandler "v".toList)) = .ok ro ∧
      (ro.ServeHTTP NewRecorder (NewRequest "GET" "/api/x/y")).toOption.map (fun w => w.Body) =
        some "y".toList) :=
  ⟨⟨_, rfl, rfl⟩, ⟨_, rfl, rfl⟩, ⟨_, rfl, rfl⟩⟩

/-- C8 (defect): the endpoint registered for `GET /a/b/*` has its wildcard flag
set, so the length test lets the one-segment request `["a"]` through, and the
segment walk then reads `path[1]`: `match` panics with an index out of range. -/
theorem C8_match_faults_on_short_path :
    ∃ (ro : Router) (e : endpoint),
      New.HandleFunc "GET".toList "/a/b/*".toList (some (statusHandler 200)) = .ok ro ∧
      ro.routes = [e] ∧ e.path = ["a".toList, "b".toList, "*".toList] ∧ e.wildcard = true ∧
      e.outcome "GET".toList ["a".toList] = .error indexOutOfRange ∧
      ro.ServeHTTP NewRecorder (NewRequest "GET" "/a") = .error indexOutOfRange :=
  ⟨_, _, rfl, rfl, rfl, rfl, rfl, rfl⟩

/-! The theorems at the inputs of the test suite -/

theorem abEndpoint_registered : abEndpoint.Registered :=
  ⟨New, routerOf abEndpoint, "GET".toList, "/api/<a>/<b>".toList, some (statusHandler 200),
    rfl, rfl⟩

theorem wildcardEndpoint_registered : wildcardEndpoint.Registered :=
  ⟨New, routerOf wildcardEndpoint, "GET".toList, "/api/*".toList, some (statusHandler 200),
    rfl, rfl⟩

/-- C4 at the methods of `TestHttpRouterMethods`: `GET /` and then `PUT /` on a
fresh router. -/
theorem C4_second_method_registers_witness :
    ∃ r1 r2 : Router,
      New.HandleFunc "GET".toList "/".toList (some (statusHandler 200)) = .ok r1 ∧
      r1.HandleFunc "PUT".toList "/".toList (some (statusHandler 200)) = .ok r2 ∧
      r2.routes.map endpoint.key =
        [(ToUpper "GET".toList, Split (ToLower (Trim "/".toList "/".toList)) '/'),
         (ToUpper "PUT".toList, Split (ToLower (Trim "/".toList "/".toList)) '/')] ∧
      r2.routes.map (fun e => e.handler) =
        [some (statusHandler 200), some (statusHandler 200)] :=
  C4_second_method_registers "/".toList "GET".toList "PUT".toList (some (statusHandler 200))
    (some (statusHandler 200)) (by decide) (by decide) (by decide)

/-- C6 at the example of the claim: pattern `/api/<a>/<b>` and request `/api/X/y`
give the handler a map with `a` bound to `X` and `b` bound to `y`. -/
theorem C6_param_map_exact_witness :
    ∃ m : ParamMap,
      (routerOf abEndpoint).ServeHTTP NewRecorder (NewRequest "GET" "/api/X/y") =
        (statusHandler 200).call ResponseRecorder NewRecorder
          { NewRequest "GET" "/api/X/y" with params := some m } ∧
      (∀ k, k ∈ m.map Prod.fst ↔ ∃ seg ∈ abEndpoint.written,
        HasPrefix seg "<".toList = true ∧ k = Trim seg "<>".toList) ∧
      m.lookup "a".toList = some "X".toList ∧ m.lookup "b".toList = some "y".toList := by
  obtain ⟨m, h1, h2, h3⟩ := (C6_param_map_exact (routerOf abEndpoint) [] [] abEndpoint
    (statusHandler 200) false true NewRecorder (NewRequest "GET" "/api/X/y") rfl
    abEndpoint_registered (by decide) (by decide) (by decide)
    (fun v hv => absurd hv (List.not_mem_nil v)) rfl).2 ⟨"<a>".toList, by decide, rfl⟩
  refine ⟨m, h1, h2, ?_, ?_⟩
  · obtain ⟨v, hv, hl⟩ := h3 1 "<a>".toList rfl rfl
    have hv1 : (NewRequest "GET" "/api/X/y").segments[1]? = some "X".toList := rfl
    rw [hv1] at hv
    rw [← hv] at hl
    exact hl
  · obtain ⟨v, hv, hl⟩ := h3 2 "<b>".toList rfl rfl
    have hv1 : (NewRequest "GET" "/api/X/y").segments[2]? = some "y".toList := rfl
    rw [hv1] at hv
    rw [← hv] at hl
    exact hl

theorem idWildcardEndpoint_registered : idWildcardEndpoint.Registered :=
  ⟨New, routerOf idWildcardEndpoint, "GET".toList, "/api/<Id>/*".toList,
    some (statusHandler 200), rfl, rfl⟩

/-- C7 at the wildcard pattern `/api/<Id>/*` and the request `/api/5/Foo/bar`: the
handler reads `5` under the key `id`. -/
theorem C7_param_by_lower_cased_name_witness :
    ∃ v : Str,
      (routerOf idWildcardEndpoint).ServeHTTP NewRecorder (NewRequest "GET" "/api/5/Foo/bar") =
        (statusHandler 200).call ResponseRecorder NewRecorder
          { NewRequest "GET" "/api/5/Foo/bar" with
            params := some [("id".toList, "5".toList)] } ∧
      (NewRequest "GET" "/api/5/Foo/bar").segments[1]? = some v ∧
      Param { NewRequest "GET" "/api/5/Foo/bar" with
              params := some [("id".toList, "5".toList)] }
        (ToLower (Trim "<Id>".toList "<>".toList)) = v :=
  C7_param_by_lower_cased_name (routerOf idWildcardEndpoint) [] [] idWildcardEndpoint
    (statusHandler 200) false true NewRecorder (NewRequest "GET" "/api/5/Foo/bar") 1
    "<Id>".toList [("id".toList, "5".toList)] rfl idWildcardEndpoint_registered rfl rfl
    (by decide) (fun v hv => absurd hv (List.not_mem_nil v)) rfl rfl

/-- C9 at the inputs of the test `wildcard pattern` and of the spec: `/api/*`
matches `/api/x/y/z`. -/
theorem C9_wildcard_suffix_matches_witness :
    wildcardEndpoint.structural (["api".toList] ++ ["x".toList, "y".toList, "z".toList]) ∧
      wildcardEndpoint.match_ "GET".toList
        (["api".toList] ++ ["x".toList, "y".toList, "z".toList]) =
        .ok (wildcardEndpoint.handler, false, false) :=
  C9_wildcard_suffix_matches wildcardEndpoint ["api".toList]
    ["x".toList, "y".toList, "z".toList] "GET".toList wildcardEndpoint_registered rfl
    (by decide) (Or.inr rfl)

/-- C10 at the inputs of the test `wildcard method`: `* /api` and `GET /api`. -/
theorem C10_method_gate_witness :
    (anyMethodEndpoint.match_ "GET".toList ["api".toList] =
        .ok (anyMethodEndpoint.handler, false, anyMethodEndpoint.params) ↔
      (anyMethodEndpoint.method = "*".toList ∨ "GET".toList = anyMethodEndpoint.method)) ∧
    (¬ (anyMethodEndpoint.method = "*".toList ∨ "GET".toList = anyMethodEndpoint.method) →
      anyMethodEndpoint.match_ "GET".toList ["api".toList] = .ok (none, true, false)) ∧
    (anyMethodEndpoint.method = "*".toList →
      ∀ m : Str, anyMethodEndpoint.match_ m ["api".toList] =
        .ok (anyMethodEndpoint.handler, false, anyMethodEndpoint.params)) :=
  C10_method_gate anyMethodEndpoint "GET".toList ["api".toList] ⟨by decide, rfl⟩

/-! Claims on matching, middleware and the JSON helper -/

section Cased
variable [CaseTables]

/-- C11: for an endpoint whose wildcard flag is off and a request segment list of
another length than the endpoint's, `match` yields no handler, the not-allowed
flag off and the params flag off, whatever the method; a router whose only route
is such an endpoint answers the request through `NotFound`. -/
theorem C11_length_mismatch_no_match (e : endpoint) (path : List Str)
    (hw : e.wildcard = false) (hlen : path.length ≠ e.path.length) :
    (∀ method : Str, e.match_ method path = .ok (none, false, false)) ∧
    (∀ (W : Type) (_ : ResponseWriter W) (ro : Router) (rw : W) (r : Request),
      ro.routes = [e] → r.normalised = path →
      ro.ServeHTTP rw r = HandlerFunc.ServeHTTP ro.NotFound rw r) := by
  have hm : ∀ method : Str, e.match_ method path = .ok (none, false, false) := by
    intro method
    simp only [endpoint.match_]
    rw [if_pos ⟨hlen, hw⟩]
  refine ⟨hm, ?_⟩
  intro W _ ro rw r hroutes hpath
  have hp : Split (ToLower (Trim r.Path "/".toList)) '/' = path := hpath
  simp only [Router.ServeHTTP, hroutes, hp, Router.ServeHTTP.scan, hm]
  simp

end Cased

/-- C12 (counterexample): `UseMiddleware` with the tracing middleware `1` and then
`2`, then a handler for `GET /`.  On the request `GET /` the header of `2` is
added first: the middleware registered last is the outermost wrapper. -/
theorem C12_last_middleware_outermost :
    ∃ ro : Router,
      ((New.UseMiddleware (traceMiddleware "1")).UseMiddleware (traceMiddleware "2")).HandleFunc
        "GET".toList "/".toList (some (statusHandler 200)) = .ok ro ∧
      ro.routes.map (fun e => e.handler) =
        [traceMiddleware "2" (traceMiddleware "1" (some (statusHandler 200)))] ∧
      (ro.ServeHTTP NewRecorder (NewRequest "GET" "/")).toOption.map (fun w => w.HeaderMap) =
        some [("X-Trace".toList, "2".toList), ("X-Trace".toList, "1".toList)] ∧
      (HandlerFunc.ServeHTTP
        (traceMiddleware "1" (traceMiddleware "2" (some (statusHandler 200))))
        NewRecorder (NewRequest "GET" "/")).toOption.map (fun w => w.HeaderMap) =
        some [("X-Trace".toList, "1".toList), ("X-Trace".toList, "2".toList)] :=
  ⟨_, rfl, rfl, rfl, rfl⟩

theorem useAll_middleware (r : Router) (ms : List Middleware) :
    (r.useAll ms).middleware = r.middleware ++ ms ∧ (r.useAll ms).routes = r.routes ∧
      (r.useAll ms).Prefix = r.Prefix := by
  induction ms generalizing r with
  | nil => simp [Router.useAll]
  | cons m ms ih =>
    have h := ih (r.UseMiddleware m)
    simp only [Router.useAll, List.foldl_cons] at h ⊢
    refine ⟨?_, ?_, ?_⟩
    · rw [h.1]; simp [Router.UseMiddleware]
    · rw [h.2.1]; rfl
    · rw [h.2.2]; rfl

section Cased
variable [CaseTables]

/-- C12 (amended): on a router without middleware, after `UseMiddleware` has been
called with `m1, ..., mn` in that order, a `HandleFunc` call that returns stores
as handler `mn(...(m2(m1(f)))...)`: the middlewares are applied to `f` from the
first registered to the last, so the last registered is the outermost wrapper and
the first registered runs closest to the handler. -/
theorem C12_middleware_applied_in_order (r0 r1 : Router) (ms : List Middleware)
    (method path : Str) (f : Option HandlerFunc) (h0 : r0.middleware = [])
    (hcall : (r0.useAll ms).HandleFunc method path f = .ok r1) :
    ∃ e : endpoint, r1.routes = r0.routes ++ [e] ∧
      e.handler = ms.foldl (fun g mw => mw g) f := by
  obtain ⟨hp, p, last, -, -, -, hr1⟩ := HandleFunc_ok _ _ _ _ _ hcall
  obtain ⟨hmw, hroutes, -⟩ := useAll_middleware r0 ms
  subst hr1
  refine ⟨{ method := ToUpper method, pattern := (r0.useAll ms).fullPath path, path := p,
            handler := (r0.useAll ms).middleware.foldl (fun g mw => mw g) f,
            wildcard := decide (last = "*".toList), params := hp }, ?_, ?_⟩
  · simp only [hroutes]
  · simp only [hmw, h0, List.nil_append]

/-- A sequence of `HandleFunc` calls that returns leaves the middleware list, the
fallbacks and the prefix as they were and appends one endpoint per call, whose
handler is the call's handler wrapped by the middleware list. -/
theorem handleAll_effect (calls : List (Str × Str × Option HandlerFunc)) (r ro : Router)
    (h : r.handleAll calls = .ok ro) :
    ro.middleware = r.middleware ∧ ro.NotFound = r.NotFound ∧
    ro.MethodNotAllowed = r.MethodNotAllowed ∧ ro.Prefix = r.Prefix ∧
    ∃ es : List endpoint, ro.routes = r.routes ++ es ∧
      es.map (fun e => e.handler) =
        calls.map (fun c => r.middleware.foldl (fun g m => m g) c.2.2) := by
  induction calls generalizing r with
  | nil =>
    simp only [Router.handleAll, Except.ok.injEq] at h
    subst h
    exact ⟨rfl, rfl, rfl, rfl, [], by simp, rfl⟩
  | cons c rest ih =>
    obtain ⟨method, path, f⟩ := c
    simp only [Router.handleAll] at h
    split at h
    · exact absurd h (by simp)
    · rename_i r1 hcall
      obtain ⟨hp, p, last, -, -, -, hr1⟩ := HandleFunc_ok _ _ _ _ _ hcall
      obtain ⟨h1, h2, h3, h4, es, hes, hhandlers⟩ := ih r1 h
      obtain ⟨E, hE⟩ : ∃ E : endpoint, E =
          { method := ToUpper method, pattern := r.fullPath path, path := p,
            handler := r.middleware.foldl (fun g mw => mw g) f,
            wildcard := decide (last = "*".toList), params := hp } := ⟨_, rfl⟩
      have hrt : r1.routes = r.routes ++ [E] := by rw [hr1, hE]
      have hm1 : r1.middleware = r.middleware := by rw [hr1]
      have hn1 : r1.NotFound = r.NotFound := by rw [hr1]
      have ha1 : r1.MethodNotAllowed = r.MethodNotAllowed := by rw [hr1]
      have hp1 : r1.Prefix = r.Prefix := by rw [hr1]
      refine ⟨h1.trans hm1, h2.trans hn1, h3.trans ha1, h4.trans hp1, E :: es, ?_, ?_⟩
      · rw [hes, hrt]
        simp
      · rw [List.map_cons, hhandlers, hm1, hE]
        rfl

/-- C13: `UseMiddleware(mw)` replaces `NotFound` by `mw(NotFound)` and
`MethodNotAllowed` by `mw(MethodNotAllowed)`, appends `mw` to the middleware
list, and leaves the prefix and the route table, with the handlers stored in it,
as they were.  After any sequence of `HandleFunc` calls that follows, the list
and the fallbacks are still those, the old endpoints are still in the table as
they were, and every new endpoint, in the order of the calls, stores `mw` applied
to the handler that the earlier middlewares produce from the call's handler. -/
theorem C13_UseMiddleware_effect (r : Router) (mw : Middleware) :
    (r.UseMiddleware mw).NotFound = mw r.NotFound ∧
    (r.UseMiddleware mw).MethodNotAllowed = mw r.MethodNotAllowed ∧
    (r.UseMiddleware mw).middleware = r.middleware ++ [mw] ∧
    (r.UseMiddleware mw).routes = r.routes ∧
    (r.UseMiddleware mw).Prefix = r.Prefix ∧
    (∀ (calls : List (Str × Str × Option HandlerFunc)) (ro : Router),
      (r.UseMiddleware mw).handleAll calls = .ok ro →
      ro.middleware = r.middleware ++ [mw] ∧
      ro.NotFound = mw r.NotFound ∧ ro.MethodNotAllowed = mw r.MethodNotAllowed ∧
      ∃ es : List endpoint, ro.routes = r.routes ++ es ∧
        es.map (fun e => e.handler) =
          calls.map (fun c => mw (r.middleware.foldl (fun g m => m g) c.2.2))) := by
  refine ⟨rfl, rfl, rfl, rfl, rfl, ?_⟩
  intro calls ro hcalls
  obtain ⟨h1, h2, h3, -, es, hes, hhandlers⟩ := handleAll_effect calls _ ro hcalls
  refine ⟨h1, h2, h3, es, hes, ?_⟩
  rw [hhandlers]
  apply List.map_congr_left
  intro c _
  simp [Router.UseMiddleware, List.foldl_append]

end Cased

/-- C14 (defect): the default `MethodNotAllowed` handler of `New()` writes status
405 together with the body `{"error":"method not allowed"}`, for every request:
the body is not empty.  The default `NotFound` handler writes status 404 and the
body `{"error":"not found"}`. -/
theorem C14_default_405_has_body (r : Request) :
    HandlerFunc.ServeHTTP New.MethodNotAllowed NewRecorder r =
      .ok { Code := 405, HeaderMap := [("Content-Type".toList, "application/json".toList)],
            Body := "\x7b\"error\":\"method not allowed\"\x7d".toList, wroteHeader := true } ∧
    HandlerFunc.ServeHTTP New.NotFound NewRecorder r =
      .ok { Code := 404, HeaderMap := [("Content-Type".toList, "application/json".toList)],
            Body := "\x7b\"error\":\"not found\"\x7d".toList, wroteHeader := true } :=
  ⟨rfl, rfl⟩

/-- C17: `JSON.Write` adds the header `Content-Type: application/json`; when the
map serialises it writes the given status and the serialised bytes, and when
serialisation fails it writes status 500 and the fixed error body.  It returns in
both cases.  On a fresh recorder the response has that status, that body and the
header. -/
theorem C17_JSON_Write (s : JSON) (status : Nat) :
    (∀ (W : Type) (_ : ResponseWriter W) (w : W),
      JSON.Write s w status =
        match Marshal s with
        | .ok serialized =>
          (ResponseWriter.Write (ResponseWriter.WriteHeader
            (ResponseWriter.HeaderAdd w "Content-Type".toList "application/json".toList)
            status) serialized).1
        | .error _ =>
          (ResponseWriter.Write (ResponseWriter.WriteHeader
            (ResponseWriter.HeaderAdd w "Content-Type".toList "application/json".toList)
            500) "\x7b\"error\": \"internal server error\"\x7d".toList).1) ∧
    JSON.Write s NewRecorder status =
      match Marshal s with
      | .ok serialized =>
        { Code := status, HeaderMap := [("Content-Type".toList, "application/json".toList)],
          Body := serialized, wroteHeader := true }
      | .error _ =>
        { Code := 500, HeaderMap := [("Content-Type".toList, "application/json".toList)],
          Body := "\x7b\"error\": \"internal server error\"\x7d".toList, wroteHeader := true } := by
  constructor
  · intro W _ w
    simp only [JSON.Write, JSON.dump, AddJsonHeader]
    cases Marshal s <;> simp
  · simp only [JSON.Write, JSON.dump, AddJsonHeader]
    cases Marshal s <;> rfl

/-- C19 (defect): `Logging` around a handler that writes `ab` and then `c`.  The
response body has three bytes, and the log line reports the size 1, the size of
the last `Write` alone, because `logger.Write` assigns the size instead of adding
it.  For the single `Write` of `TestLogging` the size is the expected 4. -/
theorem C19_logged_size_is_last_write :
    (Logging.serve (some twoWrites) NewRecorder (NewRequest "GET" "/")).toOption.map
      (fun x => (byteLen x.1.Body, x.2.status, x.2.size)) = some (3, 200, 1) ∧
    (Logging.serve (some oneWrite) NewRecorder (NewRequest "GET" "/")).toOption.map
      (fun x => (byteLen x.1.Body, x.2.status, x.2.size)) = some (4, 200, 4) ∧
    (∃ ro : Router,
      (New.UseMiddleware Logging).HandleFunc "GET".toList "/".toList (some twoWrites) = .ok ro ∧
      ro.routes.map (fun e => e.handler) = [Logging (some twoWrites)] ∧
      (ro.ServeHTTP NewRecorder (NewRequest "GET" "/")).toOption.map (fun w => w.Body) =
        some "abc".toList) :=
  ⟨rfl, rfl, _, rfl, rfl, rfl⟩

/-! Claims on wildcards, sub-routers and letter case -/

/-- Walking pattern segments over request segments that agree with them (equal,
or the pattern segment is a parameter) keeps `hit`, provided the rest of the walk
does. -/
theorem matchParts_agree (tail rest : List Str) (A Q : List Str)
    (hagree : List.Forall₂ (fun p x => x = p ∨ HasPrefix p "<".toList = true) A Q)
    (pre : List Str)
    (htail : endpoint.matchParts (pre ++ Q ++ rest) (pre.length + Q.length) tail = .ok true) :
    endpoint.matchParts (pre ++ Q ++ rest) pre.length (A ++ tail) = .ok true := by
  induction hagree generalizing pre with
  | nil => simpa using htail
  | @cons a x A Q hax _ ih =>
    simp only [List.cons_append, endpoint.matchParts]
    split
    · rfl
    · have hget : (pre ++ x :: Q ++ rest)[pre.length]? = some x := by
        rw [List.append_assoc, List.getElem?_append_right (Nat.le_refl _)]
        simp
      rw [hget]
      have hnot : ¬ (x ≠ a ∧ HasPrefix a "<".toList = false) := by
        rintro ⟨h1, h2⟩
        rcases hax with h | h
        · exact h1 h
        · rw [h] at h2
          exact absurd h2 (by simp)
      simp only [if_neg hnot]
      have h := ih (pre ++ [x]) (by
        simpa [List.append_assoc, Nat.add_assoc, Nat.add_comm 1] using htail)
      simpa [List.append_assoc] using h

/-- C20 (defect): the pattern `/a/*/b` has `*` at position 1 and the request path
`/a/x` agrees with it on the first segment, yet `match` yields no-match and the
request is answered 404: the wildcard flag is only set for a final `*`, so the
segment counts 2 and 3 are compared and the endpoint is passed over.  The walk
itself does stop at the inner `*`: the three-segment request `/a/x/y` matches
although its last segment is not `b`. -/
theorem C20_inner_wildcard_keeps_length_test :
    ∃ (ro : Router) (e : endpoint),
      New.HandleFunc "GET".toList "/a/*/b".toList (some (statusHandler 200)) = .ok ro ∧
      ro.routes = [e] ∧ e.path = ["a".toList, "*".toList, "b".toList] ∧ e.wildcard = false ∧
      e.outcome "GET".toList ["a".toList, "x".toList] = .ok (false, false, false) ∧
      (ro.ServeHTTP NewRecorder (NewRequest "GET" "/a/x")).toOption.map (fun w => w.Code) =
        some 404 ∧
      e.outcome "GET".toList ["a".toList, "x".toList, "y".toList] = .ok (true, false, false) ∧
      (ro.ServeHTTP NewRecorder (NewRequest "GET" "/a/x/y")).toOption.map (fun w => w.Code) =
        some 200 :=
  ⟨_, _, rfl, rfl, rfl, rfl, rfl, rfl, rfl, rfl⟩

section Cased
variable [CaseTables]

/-- A registered pattern with a `*` segment, and a request whose leading segments
agree with the pattern's segments before that `*`: the match is structural when
the pattern's last segment is `*` or the segment counts are equal. -/
theorem structural_of_agreement (e : endpoint) (pre post q rest : List Str)
    (hreg : e.Registered) (hpath : e.path = pre ++ "*".toList :: post)
    (hagree : List.Forall₂ (fun p x => x = p ∨ HasPrefix p "<".toList = true) pre q)
    (hlen : e.path.getLast? = some "*".toList ∨ (q ++ rest).length = e.path.length) :
    e.structural (q ++ rest) := by
  obtain ⟨-, -, hwild, -⟩ := Registered_inv e hreg
  refine ⟨?_, ?_⟩
  · rintro ⟨h1, h2⟩
    rcases hlen with h | h
    · rw [hwild.2 h] at h2
      exact absurd h2 (by simp)
    · exact h1 h
  · rw [hpath]
    have := matchParts_agree ("*".toList :: post) rest pre q hagree []
      (by simp [endpoint.matchParts])
    simpa using this

end Cased

theorem Split_append_sep (s t : Str) (sep : Char) (hs : sep ∉ s) :
    Split (s ++ sep :: t) sep = s :: Split t sep := by
  induction s with
  | nil => simp [Split]
  | cons c cs ih =>
    have hc : c ≠ sep := fun h => hs (h ▸ List.mem_cons_self _ _)
    have hcs : sep ∉ cs := fun h => hs (List.mem_cons_of_mem _ h)
    have h := ih hcs
    simp only [List.cons_append, Split, if_neg hc]
    simp only [List.append_eq, h]

theorem TrimRight_of_last (x cutset : Str) (c : Char) (hc : c ∉ cutset) :
    TrimRight (x ++ [c]) cutset = x ++ [c] := by
  simp [TrimRight, TrimLeft, List.dropWhile_cons, hc]

section Cased
variable [CaseTables]

/-- The segments of the mount pattern `/s/*`. -/
theorem mount_segments (s : Str) (hslash : '/' ∉ s) (hlower : ToLower s = s) :
    Split (ToLower (Trim ("/".toList ++ s ++ "/*".toList) "/".toList)) '/' =
      (if s = [] then ["*".toList] else [s, "*".toList]) := by
  cases s with
  | nil => rfl
  | cons c cs =>
    have hc : c ≠ '/' := fun h => hslash (h ▸ List.mem_cons_self _ _)
    have htl : TrimLeft ("/".toList ++ (c :: cs) ++ "/*".toList) "/".toList =
        (c :: cs ++ ['/']) ++ ['*'] := by
      simp [TrimLeft, List.dropWhile_cons, hc]
    have htrim : Trim ("/".toList ++ (c :: cs) ++ "/*".toList) "/".toList =
        (c :: cs) ++ '/' :: "*".toList := by
      rw [Trim, htl, TrimRight_of_last _ _ _ (by decide)]
      simp
    rw [htrim]
    have hl : ToLower ((c :: cs) ++ '/' :: "*".toList) = (c :: cs) ++ '/' :: "*".toList := by
      have : ToLower ((c :: cs) ++ '/' :: "*".toList) =
          ToLower (c :: cs) ++ '/' :: "*".toList := by
        simp only [ToLower, List.map_append]
        rfl
      rw [this, hlower]
    rw [hl, Split_append_sep _ _ _ hslash]
    simp
    rfl

/-- C15: a parent router without routes, middleware and prefix on which
`Handle("*", "/s/*", C)` has returned, for a lower-case segment `s` that does not
start with `<`, and a request whose first path segment is `s` up to letter case.
The parent's `ServeHTTP` does on the request exactly what the `ServeHTTP` of the
child `C` does on it. -/
theorem C15_subrouter_delegates {W : Type} [ResponseWriter W] (parent0 parent C : Router)
    (s first : Str) (rest : List Str) (rw : W) (r : Request)
    (hroutes : parent0.routes = []) (hmw : parent0.middleware = [])
    (hpfx : parent0.Prefix = [])
    (hslash : '/' ∉ s) (hlower : ToLower s = s) (hlt : HasPrefix s "<".toList = false)
    (hmount : parent0.Handle "*".toList ("/".toList ++ s ++ "/*".toList) C.asHandler =
      .ok parent)
    (hseg : r.segments = first :: rest) (hfirst : ToLower first = s) :
    parent.ServeHTTP rw r = C.ServeHTTP rw r := by
  obtain ⟨hp, p, last, hparse, -, hlast, hr1⟩ := HandleFunc_ok _ _ _ _ _ hmount
  have hfull : parent0.fullPath ("/".toList ++ s ++ "/*".toList) =
      "/".toList ++ s ++ "/*".toList := by
    simp [Router.fullPath, hpfx, HasPrefix]
  rw [hfull] at hparse hr1
  obtain ⟨hsegs, hflag⟩ := parsePattern_ok _ _ _ hparse
  rw [mount_segments s hslash hlower] at hsegs
  have hnorm : r.normalised = s :: rest.map ToLower := by
    rw [normalised_eq_map, hseg, List.map_cons, hfirst]
  have hpfalse : hp = false := by
    cases hpc : hp with
    | false => rfl
    | true =>
      obtain ⟨t, ht, htp⟩ := hflag.1 hpc
      rw [hsegs] at ht
      split at ht
      · simp only [List.mem_singleton] at ht
        subst ht
        exact absurd htp (by decide)
      · simp only [List.mem_cons, List.mem_singleton, List.not_mem_nil, or_false] at ht
        rcases ht with rfl | rfl
        · rw [hlt] at htp
          exact absurd htp (by simp)
        · exact absurd htp (by decide)
  have hlaststar : last = "*".toList := by
    rw [hsegs] at hlast
    split at hlast
    · simpa using hlast.symm
    · simpa using hlast.symm
  have hwalk : endpoint.matchParts (s :: rest.map ToLower) 0 p = .ok true := by
    rw [hsegs]
    split
    · simp [endpoint.matchParts]
    · have := matchParts_same ["*".toList] [s] [] (rest.map ToLower)
        (by simp [endpoint.matchParts])
      simpa using this
  subst hr1
  have hmatch : endpoint.match_
      { method := ToUpper "*".toList, pattern := "/".toList ++ s ++ "/*".toList, path := p,
        handler := parent0.middleware.foldl (fun g mw => mw g) (some C.asHandler),
        wildcard := decide (last = "*".toList), params := hp }
      r.Method r.normalised = .ok (some C.asHandler, false, false) := by
    have hup : ToUpper "*".toList = "*".toList := rfl
    simp only [endpoint.match_, hnorm, hwalk, hlaststar, hmw, hpfalse, hup, List.foldl_nil]
    simp
  have hserve := ServeHTTP_first
    { parent0 with routes := parent0.routes ++ [{
        method := ToUpper "*".toList, pattern := "/".toList ++ s ++ "/*".toList, path := p,
        handler := parent0.middleware.foldl (fun g mw => mw g) (some C.asHandler),
        wildcard := decide (last = "*".toList), params := hp }] }
    [] [] _ C.asHandler false false rw r (by simp [hroutes])
    (fun v hv => absurd hv (List.not_mem_nil v)) hmatch
  rw [hserve]
  simp only [hpfalse]
  rfl

end Cased

theorem urlParams_loop_same_length (Q1 Q2 : List Str) (hlen : Q1.length = Q2.length)
    (ps : List Str) (i : Nat) (m1 m2 : ParamMap) :
    (urlParams.loop Q1 i ps m1 = .error indexOutOfRange ∧
      urlParams.loop Q2 i ps m2 = .error indexOutOfRange) ∨
    (∃ a b, urlParams.loop Q1 i ps m1 = .ok a ∧ urlParams.loop Q2 i ps m2 = .ok b) := by
  induction ps generalizing i m1 m2 with
  | nil => exact Or.inr ⟨m1, m2, rfl, rfl⟩
  | cons p ps ih =>
    simp only [urlParams.loop]
    split
    · by_cases hi : i < Q1.length
      · have hi2 : i < Q2.length := hlen ▸ hi
        simp only [List.getElem?_eq_getElem hi, List.getElem?_eq_getElem hi2]
        exact ih _ _ _
      · have hi2 : ¬ i < Q2.length := hlen ▸ hi
        have h1 : Q1[i]? = none := List.getElem?_eq_none (by omega)
        have h2 : Q2[i]? = none := List.getElem?_eq_none (by omega)
        simp [h1, h2]
    · exact ih _ _ _

theorem parsePattern_loop_pattern (pat1 pat2 : Str) (p segs : List Str) (hp : Bool)
    (q : List Str) (h : parsePattern.loop pat1 p segs = .ok (hp, q)) :
    parsePattern.loop pat2 p segs = .ok (hp, q) := by
  induction segs with
  | nil => exact h
  | cons s rest ih =>
    simp only [parsePattern.loop] at h ⊢
    split
    · rename_i hps
      rw [if_pos hps] at h
      split
      · rename_i hbad
        rw [if_pos hbad] at h
        exact absurd h (by simp)
      · rename_i hbad
        rw [if_neg hbad] at h
        exact h
    · rename_i hps
      rw [if_neg hps] at h
      exact ih h

section Cased
variable [CaseTables]

/-- The scans of `ServeHTTP` for two requests with the same method and equally
many path segments, over the same normalised path, end alike: with the same
panic, at the same endpoint, or with the same value of `notallowed`. -/
theorem scan_pair (r1 r2 : Request) (hm : r1.Method = r2.Method)
    (hlen : r1.segments.length = r2.segments.length) (path : List Str)
    (routes : List endpoint) (b : Bool) :
    (∃ err, Router.ServeHTTP.scan r1 path routes b = .error err ∧
      Router.ServeHTTP.scan r2 path routes b = .error err) ∨
    (∃ (pre post : List endpoint) (e : endpoint) (h : HandlerFunc) (q1 q2 : Request),
      routes = pre ++ e :: post ∧ e.handler = some h ∧
      (∀ v ∈ pre, ∃ na hp, v.match_ r1.Method path = .ok (none, na, hp)) ∧
      (∃ na hp, e.match_ r1.Method path = .ok (some h, na, hp)) ∧
      q1.Method = r1.Method ∧ q1.Path = r1.Path ∧ q2.Method = r2.Method ∧ q2.Path = r2.Path ∧
      Router.ServeHTTP.scan r1 path routes b = .ok (.inl (h, q1)) ∧
      Router.ServeHTTP.scan r2 path routes b = .ok (.inl (h, q2))) ∨
    (∃ b1, Router.ServeHTTP.scan r1 path routes b = .ok (.inr b1) ∧
      Router.ServeHTTP.scan r2 path routes b = .ok (.inr b1)) := by
  induction routes generalizing b with
  | nil => exact Or.inr (Or.inr ⟨b, rfl, rfl⟩)
  | cons v vs ih =>
    cases hv : v.match_ r1.Method path with
    | error err =>
      have hv2 : v.match_ r2.Method path = .error err := hm ▸ hv
      exact Or.inl ⟨err, by simp only [Router.ServeHTTP.scan, hv],
        by simp only [Router.ServeHTTP.scan, hv2]⟩
    | ok res =>
      obtain ⟨hf, na, hp⟩ := res
      have hv2 : v.match_ r2.Method path = .ok (hf, na, hp) := hm ▸ hv
      cases hf with
      | none =>
        have e1 : Router.ServeHTTP.scan r1 path (v :: vs) b =
            Router.ServeHTTP.scan r1 path vs na := by
          simp only [Router.ServeHTTP.scan, hv]
        have e2 : Router.ServeHTTP.scan r2 path (v :: vs) b =
            Router.ServeHTTP.scan r2 path vs na := by
          simp only [Router.ServeHTTP.scan, hv2]
        rw [e1, e2]
        rcases ih na with ⟨err, h1, h2⟩ | ⟨pre, post, e, h, q1, q2, hsplit, hh, hpre, hme, a1, a2,
            a3, a4, h1, h2⟩ | ⟨b1, h1, h2⟩
        · exact Or.inl ⟨err, h1, h2⟩
        · refine Or.inr (Or.inl ⟨v :: pre, post, e, h, q1, q2, by rw [hsplit]; rfl, hh, ?_, hme,
            a1, a2, a3, a4, h1, h2⟩)
          intro w hw
          rcases List.mem_cons.1 hw with rfl | hw
          · exact ⟨na, hp, hv⟩
          · exact hpre w hw
        · exact Or.inr (Or.inr ⟨b1, h1, h2⟩)
      | some h =>
        obtain ⟨hh, -, -, -⟩ := match_some _ _ _ _ _ _ hv
        cases hp with
        | false =>
          refine Or.inr (Or.inl ⟨[], vs, v, h, r1, r2, rfl, hh,
            fun w hw => absurd hw (List.not_mem_nil w), ⟨na, false, hv⟩, rfl, rfl, rfl, rfl,
            ?_, ?_⟩)
          · simp only [Router.ServeHTTP.scan, hv]
            rfl
          · simp only [Router.ServeHTTP.scan, hv2]
            rfl
        | true =>
          rcases urlParams_loop_same_length r1.segments r2.segments hlen
            (Split (ToLower (Trim v.pattern "/".toList)) '/') 0 [] [] with
            ⟨h1, h2⟩ | ⟨a, c, h1, h2⟩
          · simp only [Request.segments] at h1 h2
            refine Or.inl ⟨indexOutOfRange, ?_, ?_⟩
            · simp only [Router.ServeHTTP.scan, hv, if_true, urlParams, h1]
            · simp only [Router.ServeHTTP.scan, hv2, if_true, urlParams, h2]
          · simp only [Request.segments] at h1 h2
            refine Or.inr (Or.inl ⟨[], vs, v, h, { r1 with params := some a },
              { r2 with params := some c }, rfl, hh,
              fun w hw => absurd hw (List.not_mem_nil w), ⟨na, true, hv⟩, rfl, rfl, rfl, rfl,
              ?_, ?_⟩)
            · simp only [Router.ServeHTTP.scan, hv, if_true, urlParams, h1]
            · simp only [Router.ServeHTTP.scan, hv2, if_true, urlParams, h2]

/-- C16: two requests with the same method whose paths are equal after
lower-casing are served alike by `ServeHTTP`.  Either both end in the same panic;
or one endpoint of the table, which no earlier endpoint precedes with a handler
for either request, has its handler called for both, each with its own method and
path; or both are answered by the same fallback.  Two registration patterns that
are equal after lower-casing have the same segment list, and `parsePattern`
accepts the one with the result it gives for the other. -/
theorem C16_case_insensitive (ro : Router) (r1 r2 : Request)
    (hm : r1.Method = r2.Method) (hp : ToLower r1.Path = ToLower r2.Path) :
    ((∃ err : Str, ∀ (W : Type) (_ : ResponseWriter W) (rw : W),
        ro.ServeHTTP rw r1 = .error err ∧ ro.ServeHTTP rw r2 = .error err) ∨
     (∃ (pre post : List endpoint) (e : endpoint) (h : HandlerFunc) (q1 q2 : Request),
        ro.routes = pre ++ e :: post ∧ e.handler = some h ∧
        (∀ v ∈ pre, ∃ na hp,
          v.match_ r1.Method (Split (ToLower (Trim r1.Path "/".toList)) '/') =
            .ok (none, na, hp)) ∧
        (∀ v ∈ pre, ∃ na hp,
          v.match_ r2.Method (Split (ToLower (Trim r2.Path "/".toList)) '/') =
            .ok (none, na, hp)) ∧
        (∃ na hp, e.match_ r1.Method (Split (ToLower (Trim r1.Path "/".toList)) '/') =
            .ok (some h, na, hp)) ∧
        (∃ na hp, e.match_ r2.Method (Split (ToLower (Trim r2.Path "/".toList)) '/') =
            .ok (some h, na, hp)) ∧
        q1.Method = r1.Method ∧ q1.Path = r1.Path ∧ q2.Method = r2.Method ∧ q2.Path = r2.Path ∧
        ∀ (W : Type) (_ : ResponseWriter W) (rw : W),
          ro.ServeHTTP rw r1 = h.call W rw q1 ∧ ro.ServeHTTP rw r2 = h.call W rw q2) ∨
     (∃ fallback : Option HandlerFunc,
        (fallback = ro.NotFound ∨ fallback = ro.MethodNotAllowed) ∧
        ∀ (W : Type) (_ : ResponseWriter W) (rw : W),
          ro.ServeHTTP rw r1 = HandlerFunc.ServeHTTP fallback rw r1 ∧
          ro.ServeHTTP rw r2 = HandlerFunc.ServeHTTP fallback rw r2)) ∧
    (∀ pat1 pat2 : Str, ToLower pat1 = ToLower pat2 →
      Split (ToLower (Trim pat1 "/".toList)) '/' = Split (ToLower (Trim pat2 "/".toList)) '/' ∧
      ∀ (flag : Bool) (segs : List Str), parsePattern pat1 = .ok (flag, segs) →
        parsePattern pat2 = .ok (flag, segs)) := by
  have hnorm : Split (ToLower (Trim r1.Path "/".toList)) '/' =
      Split (ToLower (Trim r2.Path "/".toList)) '/' := by
    simp only [← Trim_ToLower_slash, hp]
  have hlen : r1.segments.length = r2.segments.length := by
    have h1 := congrArg List.length (normalised_eq_map r1)
    have h2 := congrArg List.length (normalised_eq_map r2)
    rw [List.length_map] at h1 h2
    simp only [Request.normalised] at h1 h2
    rw [← h1, ← h2, hnorm]
  refine ⟨?_, ?_⟩
  · rcases scan_pair r1 r2 hm hlen (Split (ToLower (Trim r1.Path "/".toList)) '/')
      ro.routes false with ⟨err, h1, h2⟩ |
      ⟨pre, post, e, h, q1, q2, hsplit, hh, hpre, hme, a1, a2, a3, a4, h1, h2⟩ | ⟨b1, h1, h2⟩
    · refine Or.inl ⟨err, ?_⟩
      intro W _ rw
      simp only [Router.ServeHTTP, ← hnorm, h1, h2, and_self]
    · refine Or.inr (Or.inl ⟨pre, post, e, h, q1, q2, hsplit, hh, hpre, ?_, hme, ?_, a1, a2, a3,
        a4, ?_⟩)
      · rw [← hnorm, ← hm]
        exact hpre
      · rw [← hnorm, ← hm]
        exact hme
      · intro W _ rw
        simp only [Router.ServeHTTP, ← hnorm, h1, h2, and_self]
    · refine Or.inr (Or.inr ⟨if b1 then ro.MethodNotAllowed else ro.NotFound, ?_, ?_⟩)
      · cases b1
        · exact Or.inl rfl
        · exact Or.inr rfl
      · intro W _ rw
        simp only [Router.ServeHTTP, ← hnorm, h1, h2]
        cases b1 <;> exact ⟨rfl, rfl⟩
  · intro pat1 pat2 hpat
    have hsegs : Split (ToLower (Trim pat1 "/".toList)) '/' =
        Split (ToLower (Trim pat2 "/".toList)) '/' := by
      simp only [← Trim_ToLower_slash, hpat]
    refine ⟨hsegs, ?_⟩
    intro flag segs hparse
    simp only [parsePattern] at hparse ⊢
    rw [← hsegs]
    exact parsePattern_loop_pattern pat1 pat2 _ _ _ _ hparse

/-! Claims on `Fit` -/

end Cased

/-- C18 (counterexample): a struct with one field tagged `json:"name"` and
`snug:"required,required"`, left at its zero value by a valid body.  `Fit` reports
the field twice, not once. -/
theorem C18_repeated_tag_reported_twice :
    Fit (.ok [{ snug := some "required,required".toList, json := some "name".toList,
                isZero := true }]) =
      .ok (some "'name' is a required field, 'name' is a required field".toList) :=
  rfl

theorem tagLoop_eq (fieldName : Str) (isZero : Bool) (tags acc : List Str) :
    Fit.tagLoop fieldName isZero tags acc =
      acc ++ (if isZero = true then
        (tags.filter (fun tag => decide (tag = "required".toList))).map
          (fun _ => requiredMessage fieldName)
        else []) := by
  induction tags generalizing acc with
  | nil => simp [Fit.tagLoop]
  | cons tag rest ih =>
    simp only [Fit.tagLoop]
    by_cases ht : tag = "required".toList
    · cases isZero with
      | false =>
        rw [if_neg (fun h => absurd h.2 (by simp)), ih]
        simp
      | true =>
        rw [if_pos ⟨ht, rfl⟩, ih, List.filter_cons, if_pos (decide_eq_true ht)]
        simp
    · rw [if_neg (fun h => ht h.1), ih, List.filter_cons,
        if_neg (fun h => ht (of_decide_eq_true h))]

theorem fieldLoop_eq (fields : List StructField) (acc : List Str)
    (htags : ∀ fld ∈ fields, fld.snug ≠ none → fld.json ≠ none) :
    Fit.fieldLoop fields acc = .ok (acc ++ requiredMissing fields) := by
  induction fields generalizing acc with
  | nil => simp [Fit.fieldLoop, requiredMissing]
  | cons fld rest ih =>
    have hrest : ∀ f ∈ rest, f.snug ≠ none → f.json ≠ none :=
      fun f hf => htags f (List.mem_cons_of_mem _ hf)
    have hcons : requiredMissing (fld :: rest) =
        requiredMissing [fld] ++ requiredMissing rest := by
      simp [requiredMissing]
    rw [hcons]
    cases hs : fld.snug with
    | none =>
      simp only [Fit.fieldLoop, hs, ih acc hrest]
      simp [requiredMissing, hs]
    | some tags =>
      cases hj : fld.json with
      | none => exact absurd hj (htags fld (List.mem_cons_self _ _) (by simp [hs]))
      | some jtags =>
        cases hsp : Split jtags ',' with
        | nil => exact absurd hsp (Split_ne_nil _ _)
        | cons fieldName more =>
          simp only [Fit.fieldLoop, hs, hj, hsp, ih _ hrest, tagLoop_eq]
          simp [requiredMissing, hs, hj, hsp]

theorem Errorf_of_no_percent (s : Str) (h : '%' ∉ s) : Errorf s = s := by
  induction s with
  | nil => rfl
  | cons c cs ih =>
    have hc : c ≠ '%' := fun hc => h (hc ▸ List.mem_cons_self _ _)
    have hcs : '%' ∉ cs := fun hm => h (List.mem_cons_of_mem _ hm)
    cases cs with
    | nil => simp [Errorf, hc]
    | cons d rest =>
      rw [Errorf, if_neg hc, ih hcs]

theorem mem_of_mem_Split (s : Str) (sep : Char) (x : Str) (c : Char)
    (hx : x ∈ Split s sep) (hc : c ∈ x) : c ∈ s := by
  induction s generalizing x with
  | nil =>
    simp only [Split, List.mem_singleton] at hx
    subst hx
    exact hc
  | cons a as ih =>
    simp only [Split] at hx
    split at hx
    · rcases List.mem_cons.1 hx with rfl | hx
      · exact absurd hc (List.not_mem_nil c)
      · exact List.mem_cons_of_mem _ (ih x hx hc)
    · split at hx
      · rename_i hnil
        exact absurd hnil (Split_ne_nil _ _)
      · rename_i y ys hsp
        rcases List.mem_cons.1 hx with rfl | hx
        · rcases List.mem_cons.1 hc with rfl | hc
          · exact List.mem_cons_self _ _
          · exact List.mem_cons_of_mem _ (ih y (hsp ▸ List.mem_cons_self _ _) hc)
        · exact List.mem_cons_of_mem _ (ih x (hsp ▸ List.mem_cons_of_mem _ hx) hc)

theorem not_mem_Join (c : Char) (sep : Str) (hsep : c ∉ sep) (msgs : List Str)
    (h : ∀ m ∈ msgs, c ∉ m) : c ∉ Join msgs sep := by
  induction msgs with
  | nil => simp [Join]
  | cons x rest ih =>
    cases rest with
    | nil =>
      simp only [Join]
      exact h x (List.mem_cons_self _ _)
    | cons y more =>
      simp only [Join, List.mem_append, not_or]
      exact ⟨⟨h x (List.mem_cons_self _ _), hsep⟩,
        ih (fun m hm => h m (List.mem_cons_of_mem _ hm))⟩

theorem requiredMissing_mem (fields : List StructField) (m : Str)
    (hm : m ∈ requiredMissing fields) :
    ∃ fld ∈ fields, ∃ tags jtags, fld.snug = some tags ∧ fld.json = some jtags ∧
      "required".toList ∈ Split tags ',' ∧ fld.isZero = true ∧
      m = requiredMessage ((Split jtags ',').headD []) := by
  simp only [requiredMissing, List.mem_flatMap] at hm
  obtain ⟨fld, hfld, hmem⟩ := hm
  refine ⟨fld, hfld, ?_⟩
  cases hs : fld.snug with
  | none => simp [hs] at hmem
  | some tags =>
    cases hj : fld.json with
    | none => simp [hs, hj] at hmem
    | some jtags =>
      simp only [hs, hj] at hmem
      split at hmem
      · rename_i hz
        simp only [List.mem_map, List.mem_filter, decide_eq_true_eq] at hmem
        obtain ⟨tag, ⟨htag, hreq⟩, hmsg⟩ := hmem
        exact ⟨tags, jtags, rfl, rfl, hreq ▸ htag, hz, hmsg.symm⟩
      · exact absurd hmem (List.not_mem_nil m)

/-- C18 (amended): a struct whose `snug`-tagged fields all carry a `json` tag and
whose `json` tags are free of the percent sign, decoded from a valid body.  `Fit`
returns an error exactly when some field with the entry `required` in its `snug`
tag is left at its zero value, and nil otherwise.  The text of the error is the
list of the messages `'<json field name>' is a required field`, in declaration
order of the fields and one per entry `required` of the field's tag, joined by
a comma and a blank. -/
theorem C18_required_fields_reported (fields : List StructField)
    (htags : ∀ fld ∈ fields, fld.snug ≠ none → fld.json ≠ none)
    (hpct : ∀ fld ∈ fields, '%' ∉ fld.json.getD []) :
    Fit (.ok fields) =
      .ok (if requiredMissing fields = [] then none
           else some (Join (requiredMissing fields) ", ".toList)) ∧
    ((∃ msg, Fit (.ok fields) = .ok (some msg)) ↔
      ∃ fld ∈ fields, ∃ tags, fld.snug = some tags ∧
        "required".toList ∈ Split tags ',' ∧ fld.isZero = true) := by
  have hfit : Fit (.ok fields) =
      .ok (if requiredMissing fields = [] then none
           else some (Join (requiredMissing fields) ", ".toList)) := by
    simp only [Fit, fieldLoop_eq fields [] htags, List.nil_append]
    by_cases hnil : requiredMissing fields = []
    · simp [hnil]
    · have hlen : (requiredMissing fields).length ≠ 0 := by
        simpa [List.length_eq_zero] using hnil
      rw [if_pos hlen, if_neg hnil]
      rw [Errorf_of_no_percent]
      apply not_mem_Join _ _ (by decide)
      intro m hm
      obtain ⟨fld, hfld, tags, jtags, -, hj, -, -, hmsg⟩ := requiredMissing_mem fields m hm
      subst hmsg
      have hname : '%' ∉ (Split jtags ',').headD [] := by
        intro hc
        cases hsp : Split jtags ',' with
        | nil => exact absurd hsp (Split_ne_nil _ _)
        | cons x xs =>
          rw [hsp] at hc
          have hfree : '%' ∉ jtags := by
            have := hpct fld hfld
            rw [hj] at this
            exact this
          exact hfree
            (mem_of_mem_Split jtags ',' x '%' (hsp ▸ List.mem_cons_self _ _) hc)
      simp only [requiredMessage, List.mem_append, not_or]
      exact ⟨⟨by decide, hname⟩, by decide⟩
  refine ⟨hfit, ?_⟩
  rw [hfit]
  constructor
  · rintro ⟨msg, hmsg⟩
    by_cases hnil : requiredMissing fields = []
    · simp [hnil] at hmsg
    · obtain ⟨m, hm⟩ := List.exists_mem_of_ne_nil _ hnil
      obtain ⟨fld, hfld, tags, jtags, hs, -, hreq, hz, -⟩ := requiredMissing_mem fields m hm
      exact ⟨fld, hfld, tags, hs, hreq, hz⟩
  · rintro ⟨fld, hfld, tags, hs, hreq, hz⟩
    have hne : requiredMissing fields ≠ [] := by
      intro hnil
      have hj : fld.json ≠ none := htags fld hfld (by simp [hs])
      obtain ⟨jtags, hjt⟩ := Option.ne_none_iff_exists'.1 hj
      have : requiredMessage ((Split jtags ',').headD []) ∈ requiredMissing fields := by
        simp only [requiredMissing, List.mem_flatMap]
        refine ⟨fld, hfld, ?_⟩
        simp only [hs, hjt]
        rw [hz, if_pos rfl]
        exact List.mem_map.2 ⟨_, List.mem_filter.2 ⟨hreq, decide_eq_true rfl⟩, rfl⟩
      rw [hnil] at this
      exact absurd this (List.not_mem_nil _)
    exact ⟨_, by rw [if_neg hne]⟩

/-! The later theorems at the inputs of the test suite -/

/-- C11 at the inputs of the test `not found`: the route `GET /api` and the
request `GET /api/_update`. -/
theorem C11_length_mismatch_no_match_witness :
    apiEndpoint.match_ "GET".toList ["api".toList, "_update".toList] =
      .ok (none, false, false) ∧
    (routerOf apiEndpoint).ServeHTTP NewRecorder (NewRequest "GET" "/api/_update") =
      HandlerFunc.ServeHTTP (routerOf apiEndpoint).NotFound NewRecorder
        (NewRequest "GET" "/api/_update") :=
  ⟨(C11_length_mismatch_no_match apiEndpoint ["api".toList, "_update".toList] rfl
      (by decide)).1 "GET".toList,
   (C11_length_mismatch_no_match apiEndpoint ["api".toList, "_update".toList] rfl
      (by decide)).2 ResponseRecorder inferInstance (routerOf apiEndpoint) NewRecorder
      (NewRequest "GET" "/api/_update") rfl rfl⟩

/-- C12 at two tracing middlewares on a fresh router: the handler stored for
`GET /` is the second middleware applied to the first applied to the handler. -/
theorem C12_middleware_applied_in_order_witness :
    ∃ e : endpoint, tracedRouter.routes = New.routes ++ [e] ∧
      e.handler = traceMiddleware "2" (traceMiddleware "1" (some (statusHandler 200))) :=
  C12_middleware_applied_in_order New tracedRouter [traceMiddleware "1", traceMiddleware "2"]
    "GET".toList "/".toList (some (statusHandler 200)) rfl rfl

/-- C13 at the registrations of `TestMiddleware`: one middleware, then the
handlers of `/test1` and `/test2`; both are stored wrapped by it. -/
theorem C13_UseMiddleware_effect_witness :
    middlewareTestRouter.middleware = New.middleware ++ [traceMiddleware "1"] ∧
    middlewareTestRouter.NotFound = traceMiddleware "1" New.NotFound ∧
    middlewareTestRouter.MethodNotAllowed = traceMiddleware "1" New.MethodNotAllowed ∧
    ∃ es : List endpoint, middlewareTestRouter.routes = New.routes ++ es ∧
      es.map (fun e => e.handler) =
        [("GET".toList, "/test1".toList, some (statusHandler 200)),
         ("GET".toList, "/test2".toList, some (statusHandler 201))].map
          (fun c => traceMiddleware "1" (New.middleware.foldl (fun g m => m g) c.2.2)) :=
  (C13_UseMiddleware_effect New (traceMiddleware "1")).2.2.2.2.2
    [("GET".toList, "/test1".toList, some (statusHandler 200)),
     ("GET".toList, "/test2".toList, some (statusHandler 201))]
    middlewareTestRouter rfl

/-- C15 at the routers of `TestHandleSubrouter`, with the request `GET /Greet/apua`. -/
theorem C15_subrouter_delegates_witness :
    mainRouter.ServeHTTP NewRecorder (NewRequest "GET" "/Greet/apua") =
      greetapi.ServeHTTP NewRecorder (NewRequest "GET" "/Greet/apua") :=
  C15_subrouter_delegates New mainRouter greetapi "greet".toList "Greet".toList
    ["apua".toList] NewRecorder (NewRequest "GET" "/Greet/apua") rfl rfl rfl (by decide)
    (by decide) rfl rfl rfl (by decide)

/-- C16 at the route `GET /api` and the requests `GET /API` and `GET /api`: the
handler of the route is called for both. -/
theorem C16_case_insensitive_witness :
    (routerOf apiEndpoint).ServeHTTP NewRecorder (NewRequest "GET" "/API") =
      (statusHandler 200).call ResponseRecorder NewRecorder (NewRequest "GET" "/API") ∧
    (routerOf apiEndpoint).ServeHTTP NewRecorder (NewRequest "GET" "/api") =
      (statusHandler 200).call ResponseRecorder NewRecorder (NewRequest "GET" "/api") ∧
    ((∃ err : Str, ∀ (W : Type) (_ : ResponseWriter W) (rw : W),
        (routerOf apiEndpoint).ServeHTTP rw (NewRequest "GET" "/API") = .error err ∧
        (routerOf apiEndpoint).ServeHTTP rw (NewRequest "GET" "/api") = .error err) ∨
     (∃ (pre post : List endpoint) (e : endpoint) (h : HandlerFunc) (q1 q2 : Request),
        (routerOf apiEndpoint).routes = pre ++ e :: post ∧ e.handler = some h ∧
        (∀ v ∈ pre, ∃ na hp,
          v.match_ (NewRequest "GET" "/API").Method
            (Split (ToLower (Trim (NewRequest "GET" "/API").Path "/".toList)) '/') =
            .ok (none, na, hp)) ∧
        (∀ v ∈ pre, ∃ na hp,
          v.match_ (NewRequest "GET" "/api").Method
            (Split (ToLower (Trim (NewRequest "GET" "/api").Path "/".toList)) '/') =
            .ok (none, na, hp)) ∧
        (∃ na hp, e.match_ (NewRequest "GET" "/API").Method
            (Split (ToLower (Trim (NewRequest "GET" "/API").Path "/".toList)) '/') =
            .ok (some h, na, hp)) ∧
        (∃ na hp, e.match_ (NewRequest "GET" "/api").Method
            (Split (ToLower (Trim (NewRequest "GET" "/api").Path "/".toList)) '/') =
            .ok (some h, na, hp)) ∧
        q1.Method = (NewRequest "GET" "/API").Method ∧ q1.Path = (NewRequest "GET" "/API").Path ∧
        q2.Method = (NewRequest "GET" "/api").Method ∧ q2.Path = (NewRequest "GET" "/api").Path ∧
        ∀ (W : Type) (_ : ResponseWriter W) (rw : W),
          (routerOf apiEndpoint).ServeHTTP rw (NewRequest "GET" "/API") = h.call W rw q1 ∧
          (routerOf apiEndpoint).ServeHTTP rw (NewRequest "GET" "/api") = h.call W rw q2) ∨
     (∃ fallback : Option HandlerFunc,
        (fallback = (routerOf apiEndpoint).NotFound ∨
          fallback = (routerOf apiEndpoint).MethodNotAllowed) ∧
        ∀ (W : Type) (_ : ResponseWriter W) (rw : W),
          (routerOf apiEndpoint).ServeHTTP rw (NewRequest "GET" "/API") =
            HandlerFunc.ServeHTTP fallback rw (NewRequest "GET" "/API") ∧
          (routerOf apiEndpoint).ServeHTTP rw (NewRequest "GET" "/api") =
            HandlerFunc.ServeHTTP fallback rw (NewRequest "GET" "/api"))) :=
  ⟨rfl, rfl,
    (C16_case_insensitive (routerOf apiEndpoint) (NewRequest "GET" "/API")
      (NewRequest "GET" "/api") rfl rfl).1⟩

/-- C18 at the struct of `TestFitRequired` with the field `name` missing. -/
theorem C18_required_fields_reported_witness :
    Fit (.ok nameMissing) = .ok (some "'name' is a required field".toList) :=
  (C18_required_fields_reported nameMissing (by decide) (by decide)).1.trans rfl

/-! Claims on registration: reachable routes and prefixes -/

theorem check_ok (method path : Str) (p : List Str) (routes : List endpoint)
    (h : Router.HandleFunc.check method path p routes = .ok ()) :
    ∀ v ∈ routes, ∃ na hp, v.match_ method p = .ok (none, na, hp) := by
  induction routes with
  | nil => intro v hv; exact absurd hv (List.not_mem_nil v)
  | cons w ws ih =>
    simp only [Router.HandleFunc.check] at h
    split at h
    · exact absurd h (by simp)
    · exact absurd h (by simp)
    · rename_i na hp hw
      intro v hv
      rcases List.mem_cons.1 hv with rfl | hv
      · exact ⟨na, hp, hw⟩
      · exact ih h v hv

section Cased
variable [CaseTables]

/-- What holds of every endpoint of a table built by registrations with
upper-case methods and non-nil handlers on a router without middleware: it was
registered, its handler is not nil, and no endpoint before it yields a handler or
panics on the endpoint's own method and segments. -/
theorem handleAll_routes (calls : List (Str × Str × Option HandlerFunc)) (r0 ro : Router)
    (hcalls : r0.handleAll calls = .ok ro)
    (hgood : ∀ c ∈ calls, ToUpper c.1 = c.1 ∧ c.2.2.isSome = true)
    (hmw : r0.middleware = [])
    (h0 : ∀ pre e post, r0.routes = pre ++ e :: post →
      e.Registered ∧ e.handler.isSome = true ∧
        ∀ v ∈ pre, ∃ na hp, v.match_ e.method e.path = .ok (none, na, hp)) :
    ∀ pre e post, ro.routes = pre ++ e :: post →
      e.Registered ∧ e.handler.isSome = true ∧
        ∀ v ∈ pre, ∃ na hp, v.match_ e.method e.path = .ok (none, na, hp) := by
  induction calls generalizing r0 with
  | nil =>
    simp only [Router.handleAll, Except.ok.injEq] at hcalls
    subst hcalls
    exact h0
  | cons c rest ih =>
    obtain ⟨method, path, f⟩ := c
    simp only [Router.handleAll] at hcalls
    split at hcalls
    · exact absurd hcalls (by simp)
    · rename_i r1 hcall
      obtain ⟨hup, hf⟩ := hgood (method, path, f) (List.mem_cons_self _ _)
      simp only at hup hf
      refine ih r1 hcalls (fun c hc => hgood c (List.mem_cons_of_mem _ hc)) ?_ ?_
      · obtain ⟨hp, p, last, -, -, -, hr1⟩ := HandleFunc_ok _ _ _ _ _ hcall
        subst hr1
        exact hmw
      · intro pre e post hsplit
        obtain ⟨hp, p, last, hparse, hcheck, hlast, hr1⟩ := HandleFunc_ok _ _ _ _ _ hcall
        obtain ⟨E, hE⟩ : ∃ E : endpoint, E =
            { method := ToUpper method, pattern := r0.fullPath path, path := p,
              handler := r0.middleware.foldl (fun g mw => mw g) f,
              wildcard := decide (last = "*".toList), params := hp } := ⟨_, rfl⟩
        have hrt : r1.routes = r0.routes ++ [E] := by rw [hr1, hE]
        have hregE : E.Registered := ⟨r0, r1, method, path, f, hcall, hrt⟩
        rw [hrt] at hsplit
        rcases List.eq_nil_or_concat post with hpost | ⟨post1, x, hpost⟩
        · subst hpost
          have hsplit1 : r0.routes ++ [E] = pre ++ [e] := hsplit
          obtain ⟨hpre, he⟩ := List.append_inj' hsplit1 rfl
          simp only [List.cons.injEq, and_true] at he
          subst hpre
          subst he
          refine ⟨hregE, ?_, ?_⟩
          · rw [hE]
            simp only [hmw, List.foldl_nil]
            exact hf
          · rw [hE]
            simp only [hup]
            exact check_ok _ _ _ _ hcheck
        · subst hpost
          have hsplit1 : r0.routes ++ [E] = (pre ++ e :: post1) ++ [x] := by
            rw [hsplit]
            simp
          obtain ⟨hroutes, -⟩ := List.append_inj' hsplit1 rfl
          exact h0 pre e post1 hroutes

/-- C21: a router built from `New()` by `HandleFunc` calls that all return, each
with a non-nil handler and a method string left unchanged by upper-casing (an
upper-case method or `*`).  For every endpoint of the table there is a request,
the endpoint's own method and pattern, that no earlier endpoint answers and on
which neither an earlier endpoint nor `urlParams` panics: `ServeHTTP` calls the
handler of that endpoint. -/
theorem C21_no_dead_routes (calls : List (Str × Str × Option HandlerFunc)) (ro : Router)
    (pre post : List endpoint) (e : endpoint)
    (hcalls : New.handleAll calls = .ok ro)
    (hgood : ∀ c ∈ calls, ToUpper c.1 = c.1 ∧ c.2.2.isSome = true)
    (hroutes : ro.routes = pre ++ e :: post) :
    ∃ (r r1 : Request) (h : HandlerFunc), e.handler = some h ∧
      (∀ v ∈ pre, ∃ na hp, v.match_ r.Method r.normalised = .ok (none, na, hp)) ∧
      e.match_ r.Method r.normalised = .ok (some h, false, e.params) ∧
      r1.Method = r.Method ∧ r1.Path = r.Path ∧
      ∀ (W : Type) (_ : ResponseWriter W) (rw : W), ro.ServeHTTP rw r = h.call W rw r1 := by
  obtain ⟨hreg, hsome, hpre⟩ := handleAll_routes calls New ro hcalls hgood rfl
    (fun pre e post h => absurd h (by simp [New])) pre e post hroutes
  obtain ⟨h, hh⟩ := Option.isSome_iff_exists.1 hsome
  obtain ⟨hpath, -, -, -⟩ := Registered_inv e hreg
  have hnorm : ({ Method := e.method, Path := e.pattern } : Request).normalised = e.path :=
    hpath.symm
  have hstruct : e.structural e.path :=
    ⟨fun hc => hc.1 rfl, matchParts_self e.path⟩
  have hmatch : e.match_ e.method e.path = .ok (some h, false, e.params) := by
    rw [match_of_structural e e.method e.path hstruct, if_neg (fun hc => hc.2 rfl), hh]
  have hlen : ({ Method := e.method, Path := e.pattern } : Request).segments.length =
      e.path.length := by
    rw [Registered_path_eq_map e hreg, List.length_map]
    rfl
  obtain ⟨m, hm, -⟩ := urlParams_loop_ok
    ({ Method := e.method, Path := e.pattern } : Request).segments e.path 0 [] (by omega)
  have hurl : urlParams e.pattern e.pattern = .ok m := by
    simp only [urlParams]
    rw [← hpath]
    exact hm
  refine ⟨{ Method := e.method, Path := e.pattern },
    if e.params then { Method := e.method, Path := e.pattern, params := some m }
    else { Method := e.method, Path := e.pattern }, h, hh, ?_, ?_, ?_, ?_, ?_⟩
  · rw [hnorm]
    exact hpre
  · rw [hnorm]
    exact hmatch
  · split <;> rfl
  · split <;> rfl
  · intro W _ rw
    have hserve := ServeHTTP_first ro pre post e h false e.params rw
      { Method := e.method, Path := e.pattern } hroutes
      (by
        have := hnorm
        simp only [Request.normalised] at this
        simp only [this]
        exact hpre)
      (by
        have := hnorm
        simp only [Request.normalised] at this
        simp only [this]
        exact hmatch)
    rw [hserve]
    cases e.params with
    | false => rfl
    | true =>
      simp only [if_true, hurl]

end Cased

theorem Split_append (A B : Str) (sep : Char) :
    Split (A ++ sep :: B) sep = Split A sep ++ Split B sep := by
  induction A with
  | nil => simp [Split]
  | cons c cs ih =>
    by_cases hc : c = sep
    · simp only [List.cons_append, Split, if_pos hc]
      simp only [List.append_eq, ih, List.cons_append]
    · simp only [List.cons_append, Split, if_neg hc]
      simp only [List.append_eq, ih]
      cases hsp : Split cs sep with
      | nil => exact absurd hsp (Split_ne_nil _ _)
      | cons x xs => simp

theorem TrimLeft_head (s cutset : Str) (h : ∃ c ∈ s, c ∉ cutset) :
    ∃ c rest, TrimLeft s cutset = c :: rest ∧ c ∉ cutset := by
  induction s with
  | nil =>
    obtain ⟨c, hc, -⟩ := h
    exact absurd hc (List.not_mem_nil c)
  | cons a as ih =>
    by_cases ha : a ∈ cutset
    · obtain ⟨c, hc, hcn⟩ := h
      rcases List.mem_cons.1 hc with rfl | hc
      · exact absurd ha hcn
      · obtain ⟨d, rest, hd, hdn⟩ := ih ⟨c, hc, hcn⟩
        refine ⟨d, rest, ?_, hdn⟩
        simp only [TrimLeft, List.dropWhile_cons, ha, decide_True, if_true] at hd ⊢
        exact hd
    · refine ⟨a, as, ?_, ha⟩
      simp [TrimLeft, List.dropWhile_cons, ha]

theorem dropWhile_append_of_exists (p : Char → Bool) (L1 L2 : Str)
    (h : ∃ c ∈ L1, p c = false) : (L1 ++ L2).dropWhile p = L1.dropWhile p ++ L2 := by
  induction L1 with
  | nil =>
    obtain ⟨c, hc, -⟩ := h
    exact absurd hc (List.not_mem_nil c)
  | cons a as ih =>
    cases hpa : p a with
    | false => simp [List.dropWhile_cons, hpa]
    | true =>
      obtain ⟨c, hc, hcn⟩ := h
      rcases List.mem_cons.1 hc with rfl | hc
      · rw [hpa] at hcn
        exact absurd hcn (by simp)
      · simp only [List.cons_append, List.dropWhile_cons, hpa, if_true]
        exact ih ⟨c, hc, hcn⟩

theorem TrimRight_append (X Y cutset : Str) (h : ∃ c ∈ Y, c ∉ cutset) :
    TrimRight (X ++ Y) cutset = X ++ TrimRight Y cutset := by
  obtain ⟨c, hc, hcn⟩ := h
  simp only [TrimRight, TrimLeft, List.reverse_append]
  rw [dropWhile_append_of_exists _ _ _ ⟨c, List.mem_reverse.2 hc, by simpa using hcn⟩]
  simp

theorem TrimRight_cons_head (c : Char) (rest cutset : Str) (hc : c ∉ cutset) :
    ∃ rest1, TrimRight (c :: rest) cutset = c :: rest1 := by
  have h := TrimRight_append [c] rest cutset
  by_cases hr : ∃ d ∈ rest, d ∉ cutset
  · exact ⟨_, h hr⟩
  · refine ⟨[], ?_⟩
    have hall : ∀ d ∈ rest.reverse, decide (d ∈ cutset) = true := by
      intro d hd
      by_contra hdn
      exact hr ⟨d, List.mem_reverse.1 hd, by simpa using hdn⟩
    simp only [TrimRight, TrimLeft, List.reverse_cons]
    have hdrop : ∀ L : Str, (∀ d ∈ L, decide (d ∈ cutset) = true) →
        (L ++ [c]).dropWhile (fun c => decide (c ∈ cutset)) = [c] := by
      intro L hL
      induction L with
      | nil => simp [List.dropWhile_cons, hc]
      | cons a as ih =>
        simp only [List.cons_append, List.dropWhile_cons, hL a (List.mem_cons_self _ _), if_true]
        exact ih (fun d hd => hL d (List.mem_cons_of_mem _ hd))
    rw [hdrop _ hall]
    rfl

section Cased
variable [CaseTables]

theorem ToLower_append (A B : Str) : ToLower (A ++ B) = ToLower A ++ ToLower B := by
  simp [ToLower]

end Cased

/-- The path `HandleFunc` registers under a prefix, and its trimmed form, when
prefix and path each hold a character other than the slash. -/
theorem fullPath_with_prefix (r : Router) (Q : Str) (hP : ∃ c ∈ r.Prefix, c ≠ '/')
    (hQ : ∃ c ∈ Q, c ≠ '/') :
    (∃ c rest, r.fullPath Q = '/' :: c :: rest ∧ c ≠ '/') ∧
    Trim (r.fullPath Q) "/".toList =
      Trim r.Prefix "/".toList ++ '/' :: Trim Q "/".toList := by
  have hcut : ∀ c : Char, c ∉ "/".toList ↔ c ≠ '/' := by
    intro c
    simp
  obtain ⟨c, rest, hleft, hc⟩ := TrimLeft_head r.Prefix "/".toList
    (by obtain ⟨c, h1, h2⟩ := hP; exact ⟨c, h1, (hcut c).2 h2⟩)
  obtain ⟨rest1, hright⟩ := TrimRight_cons_head c rest "/".toList hc
  have hTP : Trim r.Prefix "/".toList = c :: rest1 := by
    rw [Trim, hleft, hright]
  have hne : r.Prefix ≠ [] := by
    obtain ⟨d, hd, -⟩ := hP
    exact List.ne_nil_of_mem hd
  have hcne : c ≠ '/' := (hcut c).1 hc
  have hfull : r.fullPath Q =
      '/' :: (c :: rest1 ++ '/' :: TrimLeft Q "/".toList) := by
    simp only [Router.fullPath, if_pos hne, hTP]
    have hpre : HasPrefix (c :: rest1 ++ "/".toList ++ TrimLeft Q "/".toList) "/".toList =
        false := by
      have hbeq : ('/' == c) = false := beq_eq_false_iff_ne.2 (fun h => hcne h.symm)
      simp only [HasPrefix, String.toList, List.cons_append, List.isPrefixOf, hbeq,
        Bool.false_and]
    rw [if_pos hpre]
    simp
  obtain ⟨d, rest2, hQleft, hd⟩ := TrimLeft_head Q "/".toList
    (by obtain ⟨c, h1, h2⟩ := hQ; exact ⟨c, h1, (hcut c).2 h2⟩)
  refine ⟨⟨c, _, hfull, hcne⟩, ?_⟩
  rw [hfull, hTP]
  have hl : TrimLeft ('/' :: (c :: rest1 ++ '/' :: TrimLeft Q "/".toList)) "/".toList =
      (c :: rest1 ++ ['/']) ++ TrimLeft Q "/".toList := by
    simp [TrimLeft, List.dropWhile_cons, hcne]
  rw [Trim, hl, TrimRight_append _ _ _ ⟨d, by rw [hQleft]; exact List.mem_cons_self _ _, hd⟩]
  simp [Trim]

section Cased
variable [CaseTables]

/-- C22: on a router whose prefix holds a character other than the slash, a
`HandleFunc` call that returns, for a path that holds a character other than the
slash, stores an endpoint whose segments are the segments of the prefix followed
by the segments of the path (each string slash-trimmed, lower-cased and split at
the slashes), and whose pattern starts with one slash followed by another
character. -/
theorem C22_prefix_segments (r r1 : Router) (method Q : Str) (f : Option HandlerFunc)
    (hP : ∃ c ∈ r.Prefix, c ≠ '/') (hQ : ∃ c ∈ Q, c ≠ '/')
    (hcall : r.HandleFunc method Q f = .ok r1) :
    ∃ e : endpoint, r1.routes = r.routes ++ [e] ∧
      e.path = Split (ToLower (Trim r.Prefix "/".toList)) '/' ++
        Split (ToLower (Trim Q "/".toList)) '/' ∧
      ∃ c rest, e.pattern = '/' :: c :: rest ∧ c ≠ '/' := by
  obtain ⟨hp, p, last, hparse, -, -, hr1⟩ := HandleFunc_ok _ _ _ _ _ hcall
  obtain ⟨hsegs, -⟩ := parsePattern_ok _ _ _ hparse
  obtain ⟨hstart, htrim⟩ := fullPath_with_prefix r Q hP hQ
  subst hr1
  refine ⟨_, rfl, ?_, hstart⟩
  simp only [hsegs, htrim]
  rw [ToLower_append]
  have hcons : ToLower ('/' :: Trim Q "/".toList) = '/' :: ToLower (Trim Q "/".toList) := rfl
  rw [hcons, Split_append]

/-! The theorems on registration at the inputs of the test suite -/

end Cased

/-- C21 at the table `GET /api`, `* /api`: the second endpoint is reached by the
request with method `*` and path `/api`. -/
theorem C21_no_dead_routes_witness :
    ∃ (r r1 : Request) (h : HandlerFunc), anyMethodEndpoint.handler = some h ∧
      (∀ v ∈ [apiEndpoint], ∃ na hp, v.match_ r.Method r.normalised = .ok (none, na, hp)) ∧
      anyMethodEndpoint.match_ r.Method r.normalised =
        .ok (some h, false, anyMethodEndpoint.params) ∧
      r1.Method = r.Method ∧ r1.Path = r.Path ∧
      ∀ (W : Type) (_ : ResponseWriter W) (rw : W),
        twoRoutes.ServeHTTP rw r = h.call W rw r1 :=
  C21_no_dead_routes
    [("GET".toList, "/api".toList, some (statusHandler 200)),
     ("*".toList, "/api".toList, some (statusHandler 200))]
    twoRoutes [apiEndpoint] [] anyMethodEndpoint rfl (by decide) rfl

/-- C22 at the registration of `TestHandleSubrouter`: prefix `/greet/` and path
`/apua`. -/
theorem C22_prefix_segments_witness :
    ∃ e : endpoint, greetapi.routes = [] ++ [e] ∧
      e.path = Split (ToLower (Trim "/greet/".toList "/".toList)) '/' ++
        Split (ToLower (Trim "/apua".toList "/".toList)) '/' ∧
      ∃ c rest, e.pattern = '/' :: c :: rest ∧ c ≠ '/' :=
  C22_prefix_segments { New with Prefix := "/greet/".toList } greetapi "GET".toList
    "/apua".toList (some (statusHandler 202)) (by decide) (by decide) rfl


end Snug
